import Mathlib

/-!
Verification development for the SCIM endpoint server's filter push-down
planner, Prisma-style in-memory filter evaluator, and the User/Group PATCH
engines.  Definitions are shallow embeddings of the TypeScript sources:

* `apply-scim-filter.ts` (tryPushToDb / pushCompareToDb / buildColumnFilter /
  pushLogicalToDb / buildFilterResult / buildUserFilter column maps)
* `prisma-filter-evaluator.ts` (matchesPrismaFilter / matchEquality /
  matchOperator / compareOrdered)
* `user-patch-engine.ts` (UserPatchEngine)
* `group-patch-engine.ts` (GroupPatchEngine)

JavaScript strings are modelled as Lean `String`; the case-folding,
prefix/suffix/substring and lexicographic operations used by the code are
reimplemented explicitly on the underlying character lists so that every
step of the embedding is transparent.  JavaScript plain objects are
modelled as ordered association lists (`JSObj`) with unique keys, matching
JS object insertion-order semantics: property writes keep the slot of an
existing key and append new keys at the end.
-/

/-- ASCII lower-casing of a character, as used by `String.prototype.toLowerCase`
on the ASCII identifiers that appear in the sources. -/
def lowerChar (c : Char) : Char :=
  if 'A' ≤ c ∧ c ≤ 'Z' then Char.ofNat (c.toNat + 32) else c

/-- Lower-case a string character-wise (model of `toLowerCase`). -/
def lowerStr (s : String) : String := ⟨s.data.map lowerChar⟩

/-- List prefix test (model of `String.prototype.startsWith`). -/
def listStarts : List Char → List Char → Bool
  | [], _ => true
  | _ :: _, [] => false
  | p :: ps, c :: cs => p = c && listStarts ps cs

/-- Substring containment on character lists (model of `String.prototype.includes`). -/
def listHasSub (needle : List Char) : List Char → Bool
  | [] => listStarts needle []
  | c :: cs => listStarts needle (c :: cs) || listHasSub needle cs

/-- Model of `String.prototype.startsWith`. -/
def strStarts (s pre : String) : Bool := listStarts pre.data s.data

/-- Model of `String.prototype.endsWith`. -/
def strEnds (s suf : String) : Bool := listStarts suf.data.reverse s.data.reverse

/-- Model of `String.prototype.includes`. -/
def strHasSub (s sub : String) : Bool := listHasSub sub.data s.data

/-- JS `<` on strings: lexicographic comparison of character code units. -/
def listLt : List Char → List Char → Bool
  | [], [] => false
  | [], _ :: _ => true
  | _ :: _, [] => false
  | a :: as, b :: bs => a.toNat < b.toNat || (a = b && listLt as bs)

/-- Model of JS string `<`. -/
def strLt (a b : String) : Bool := listLt a.data b.data

/-- Does the string contain a given character (used for `includes('.')` etc.)? -/
def strHasChar (s : String) (c : Char) : Bool := s.data.contains c

/-- Model of the JavaScript value universe as far as the embedded code
observes it: `null`, `undefined`, booleans, (integer) numbers, strings,
arrays and plain objects.  Objects are ordered association lists. -/
inductive JSVal where
  | null
  | undef
  | bool (b : Bool)
  | num (n : Int)
  | str (s : String)
  | arr (elems : List JSVal)
  | obj (entries : List (String × JSVal))

/-- A JS plain object: ordered key/value entries (keys unique in real JS). -/
abbrev JSObj := List (String × JSVal)

namespace JSVal

/-- JS `String(value)` on the scalar values that reach it in the sources. -/
def jsToString : JSVal → String
  | .null => "null"
  | .undef => "undefined"
  | .bool true => "true"
  | .bool false => "false"
  | .num n => toString n
  | .str s => s
  | .arr _ => ""
  | .obj _ => "[object Object]"

/-- JS strict equality `===` restricted to the comparisons the embedded code
performs: structural on primitives; an object or array compared with a
filter-supplied scalar is never identical (reference equality), so those
cases are `false`. -/
def jsStrictEq : JSVal → JSVal → Bool
  | .null, .null => true
  | .undef, .undef => true
  | .bool a, .bool b => a = b
  | .num a, .num b => a = b
  | .str a, .str b => a = b
  | _, _ => false

/-- Is the value a JS object in the `typeof v === 'object' && v !== null`
sense (arrays included)? -/
def isObjectLike : JSVal → Bool
  | .obj _ => true
  | .arr _ => true
  | _ => false

/-- JS truthiness of the values appearing in the embedded code. -/
def jsTruthy : JSVal → Bool
  | .null => false
  | .undef => false
  | .bool b => b
  | .num n => n ≠ 0
  | .str s => s ≠ ""
  | .arr _ => true
  | .obj _ => true

end JSVal

/-- Exact-key property read: `record[key]`, `undefined` when absent. -/
def jsGet (o : JSObj) (k : String) : JSVal :=
  match o with
  | [] => .undef
  | (k', v) :: rest => if k' = k then v else jsGet rest k

/-- Exact-key presence test (JS `key in obj`). -/
def jsHasKey (o : JSObj) (k : String) : Bool :=
  match o with
  | [] => false
  | (k', _) :: rest => k' = k || jsHasKey rest k

/-- Property write `obj[key] = v` / spread-update `{...obj, key: v}`:
replaces the value in place when the key exists, else appends. -/
def jsSet (o : JSObj) (k : String) (v : JSVal) : JSObj :=
  match o with
  | [] => [(k, v)]
  | (k', v') :: rest =>
    if k' = k then (k', v) :: rest else (k', v') :: jsSet rest k v

/-- Property deletion `delete obj[key]` (exact key). -/
def jsDelete (o : JSObj) (k : String) : JSObj :=
  o.filter (fun e => e.1 ≠ k)

/-- `Object.entries(value)` for the object-like values the code iterates:
object entries as-is, array elements under their index keys. -/
def jsEntries : JSVal → JSObj
  | .obj o => o
  | .arr es => (es.enum.map fun (i, e) => (toString i, e))
  | _ => []

/-- Property read on an arbitrary value (`value[key]`): objects look keys
up, everything else yields `undefined` for the non-index keys used here. -/
def jsGetVal : JSVal → String → JSVal
  | .obj o, k => jsGet o k
  | _, _ => (.undef)

/-- Exact-key presence on an arbitrary value (`'k' in value`). -/
def jsHasKeyVal : JSVal → String → Bool
  | .obj o, k => jsHasKey o k
  | _, _ => false

/-! ## prisma-filter-evaluator.ts -/

/-- `matchEquality` — case-insensitive equality for strings (CITEXT
behaviour), strict `===` otherwise. -/
def matchEquality (stored expected : JSVal) : Bool :=
  match stored, expected with
  | .str a, .str b => lowerStr a = lowerStr b
  | a, b => a.jsStrictEq b

/-- `compareOrdered` — ordered comparison for gt/gte/lt/lte: numbers
numerically, strings lexicographically after lower-casing, anything else
`false`. -/
def compareOrdered (stored expected : JSVal) (op : String) : Bool :=
  match stored, expected with
  | .num a, .num b =>
    if op = "gt" then a > b
    else if op = "gte" then a ≥ b
    else if op = "lt" then a < b
    else if op = "lte" then a ≤ b
    else false
  | .str a, .str b =>
    let s := lowerStr a
    let e := lowerStr b
    if op = "gt" then strLt e s
    else if op = "gte" then strLt e s || s = e
    else if op = "lt" then strLt s e
    else if op = "lte" then strLt s e || s = e
    else false
  | _, _ => false

/-- `matchOperator` — evaluate a Prisma operator object (`not`, `contains`,
`startsWith`, `endsWith`, `gt`, `gte`, `lt`, `lte`, with optional
`mode: 'insensitive'`) against a stored value. -/
def matchOperator (stored : JSVal) (opObj : JSObj) : Bool :=
  let caseInsensitive := (jsGet opObj "mode").jsStrictEq (.str "insensitive")
  if jsHasKey opObj "not" &&
      !(jsHasKey opObj "contains" || jsHasKey opObj "startsWith" ||
        jsHasKey opObj "endsWith" || jsHasKey opObj "gt") then
    match jsGet opObj "not" with
    | .null => !(stored.jsStrictEq .null) && !(stored.jsStrictEq .undef)
    | notValue => !matchEquality stored notValue
  else if jsHasKey opObj "contains" then
    match stored with
    | .str s =>
      let search := (jsGet opObj "contains").jsToString
      if caseInsensitive then strHasSub (lowerStr s) (lowerStr search)
      else strHasSub s search
    | _ => false
  else if jsHasKey opObj "startsWith" then
    match stored with
    | .str s =>
      let search := (jsGet opObj "startsWith").jsToString
      if caseInsensitive then strStarts (lowerStr s) (lowerStr search)
      else strStarts s search
    | _ => false
  else if jsHasKey opObj "endsWith" then
    match stored with
    | .str s =>
      let search := (jsGet opObj "endsWith").jsToString
      if caseInsensitive then strEnds (lowerStr s) (lowerStr search)
      else strEnds s search
    | _ => false
  else if jsHasKey opObj "gt" then compareOrdered stored (jsGet opObj "gt") "gt"
  else if jsHasKey opObj "gte" then compareOrdered stored (jsGet opObj "gte") "gte"
  else if jsHasKey opObj "lt" then compareOrdered stored (jsGet opObj "lt") "lt"
  else if jsHasKey opObj "lte" then compareOrdered stored (jsGet opObj "lte") "lte"
  else false

mutual

/-- `matchesPrismaFilter` — evaluate a Prisma-style WHERE clause object
against an in-memory record: every entry must match; `AND`/`OR` recurse. -/
def matchesPrismaFilter (record : JSObj) : JSObj → Bool
  | [] => true
  | (key, condition) :: rest =>
    matchTopEntry record key condition && matchesPrismaFilter record rest

/-- One top-level entry of the filter object: `AND`/`OR` compound keys or
a column condition (nested operator object vs. scalar equality). -/
def matchTopEntry (record : JSObj) (key : String) (condition : JSVal) : Bool :=
  if key = "AND" then
    match condition with
    | .arr clauses => matchAllClauses record clauses
    | _ => true
  else if key = "OR" then
    match condition with
    | .arr clauses => matchAnyClauses record clauses
    | _ => false
  else
    match condition with
    | .obj opObj => matchOperator (jsGet record key) opObj
    | .arr _ => false
    | scalar => matchEquality (jsGet record key) scalar

/-- `clauses.every(clause => matchesPrismaFilter(record, clause))`. -/
def matchAllClauses (record : JSObj) : List JSVal → Bool
  | [] => true
  | c :: cs => matchOneClause record c && matchAllClauses record cs

/-- `clauses.some(clause => matchesPrismaFilter(record, clause))`. -/
def matchAnyClauses (record : JSObj) : List JSVal → Bool
  | [] => false
  | c :: cs => matchOneClause record c || matchAnyClauses record cs

/-- One compound sub-clause: object clauses recurse; other shapes never
occur in produced filters (their entries are empty, matching vacuously). -/
def matchOneClause (record : JSObj) : JSVal → Bool
  | .obj o => matchesPrismaFilter record o
  | _ => true

end

/-! ## Filter AST (shape from `scim-filter-parser.ts` as documented in the
spec §3: `Compare`, `Logical`, `Not`, `ValuePath`, operators as strings). -/

/-- Filter AST node.  The `op` fields are the operator keyword strings the
parser produces (`eq`, `ne`, `co`, `sw`, `ew`, `gt`, `ge`, `lt`, `le`,
`pr`; `and` / `or` on logical nodes). -/
inductive FilterNode where
  | compare (attrPath : String) (op : String) (value : JSVal)
  | logical (op : String) (left right : FilterNode)
  | notNode (inner : FilterNode)
  | valuePath (attrPath : String) (innerFilter : FilterNode)

/-! ## apply-scim-filter.ts -/

/-- Column type of a mapped DB column (`citext`, `varchar`, `boolean`, `uuid`). -/
inductive ColumnType where
  | citext
  | varchar
  | boolean
  | uuid
deriving DecidableEq

/-- A column-map entry: Prisma model field name and its PostgreSQL type. -/
structure ColumnMapping where
  column : String
  type : ColumnType

/-- Lowercase SCIM attribute name → Prisma column + type. -/
abbrev ColumnMap := List (String × ColumnMapping)

/-- Column-map lookup (`columnMap[attrLower]`). -/
def cmapLookup (m : ColumnMap) (k : String) : Option ColumnMapping :=
  match m with
  | [] => none
  | (k', v) :: rest => if k' = k then some v else cmapLookup rest k

/-- `USER_DB_COLUMNS` — DB-pushable column map for Users. -/
def USER_DB_COLUMNS : ColumnMap :=
  [ ("username",    ⟨"userName",    .citext⟩),
    ("displayname", ⟨"displayName", .citext⟩),
    ("externalid",  ⟨"externalId",  .varchar⟩),
    ("id",          ⟨"scimId",      .uuid⟩),
    ("active",      ⟨"active",      .boolean⟩) ]

/-- `GROUP_DB_COLUMNS` — DB-pushable column map for Groups. -/
def GROUP_DB_COLUMNS : ColumnMap :=
  [ ("displayname", ⟨"displayName", .citext⟩),
    ("externalid",  ⟨"externalId",  .varchar⟩),
    ("id",          ⟨"scimId",      .uuid⟩),
    ("active",      ⟨"active",      .boolean⟩) ]

/-- `buildColumnFilter` — translate a SCIM operator + value into a Prisma
field-level filter; `none` when the operator is illegal for the column
type or unknown. -/
def buildColumnFilter (column : String) (type : ColumnType) (op : String)
    (value : JSVal) : Option JSObj :=
  match op with
  | "eq" => some [(column, value)]
  | "ne" => some [(column, .obj [("not", value)])]
  | "co" =>
    if type ≠ .citext ∧ type ≠ .varchar then none
    else some [(column, .obj [("contains", .str value.jsToString),
                              ("mode", .str "insensitive")])]
  | "sw" =>
    if type ≠ .citext ∧ type ≠ .varchar then none
    else some [(column, .obj [("startsWith", .str value.jsToString),
                              ("mode", .str "insensitive")])]
  | "ew" =>
    if type ≠ .citext ∧ type ≠ .varchar then none
    else some [(column, .obj [("endsWith", .str value.jsToString),
                              ("mode", .str "insensitive")])]
  | "gt" => some [(column, .obj [("gt", value)])]
  | "ge" => some [(column, .obj [("gte", value)])]
  | "lt" => some [(column, .obj [("lt", value)])]
  | "le" => some [(column, .obj [("lte", value)])]
  | "pr" => some [(column, .obj [("not", .null)])]
  | _ => none

/-- `pushCompareToDb` — map the SCIM attribute to a Prisma column and
translate the operator; `none` on un-mapped attributes. -/
def pushCompareToDb (attrPath : String) (op : String) (value : JSVal)
    (columnMap : ColumnMap) : Option JSObj :=
  match cmapLookup columnMap (lowerStr attrPath) with
  | none => none
  | some mapped => buildColumnFilter mapped.column mapped.type op value

/-- `tryPushToDb` (with `pushLogicalToDb` inlined for the logical case) —
attempt to convert a filter AST node into a Prisma where clause; `none`
when the node or any descendant cannot be pushed (`not`, `valuePath`,
un-mapped attributes, or a logical node with an un-pushable side). -/
def tryPushToDb (ast : FilterNode) (columnMap : ColumnMap) : Option JSObj :=
  match ast with
  | .compare attrPath op value => pushCompareToDb attrPath op value columnMap
  | .logical op left right =>
    let l := tryPushToDb left columnMap
    let r := tryPushToDb right columnMap
    if op = "and" then
      match l, r with
      | some lw, some rw => some [("AND", .arr [.obj lw, .obj rw])]
      | _, _ => none
    else if op = "or" then
      match l, r with
      | some lw, some rw => some [("OR", .arr [.obj lw, .obj rw])]
      | _, _ => none
    else none
  | _ => none

/-! ## In-memory filter evaluator.

Modelled from the spec: `evaluateFilter` lives in `scim-filter-parser.ts`,
which is not among the provided sources (only its caller
`apply-scim-filter.ts` and tests are).  The definitions below follow
spec §4.2: attribute lookup with dotted traversal and case-insensitive
key matching; string comparisons case-insensitive for equality, ordering
and the substring operators; numeric/boolean comparisons structural;
`pr` true iff the resolved value is present and not null; `and`/`or`
short-circuit; `not` negates; `ValuePath` is element-scoped over lists. -/

/-- Case-insensitive key lookup: value of the first key whose lower-case
form matches, `undefined` when none does. -/
def jsGetCI (o : JSObj) (k : String) : JSVal :=
  match o with
  | [] => .undef
  | (k', v) :: rest => if lowerStr k' = lowerStr k then v else jsGetCI rest k

/-- Split a character list at every occurrence of a separator character
(the shape `String.splitOn` produces for a one-character separator). -/
def splitOnChar (c : Char) : List Char → List (List Char)
  | [] => [[]]
  | x :: xs =>
    if x = c then [] :: splitOnChar c xs
    else
      match splitOnChar c xs with
      | h :: t => (x :: h) :: t
      | [] => [[x]]

/-- Modelled from the spec: resolve a (possibly dotted) attribute path in a
record, descending through nested objects case-insensitively. -/
def resolveAttr (record : JSObj) (attrPath : String) : JSVal :=
  go record (splitOnChar '.' attrPath.data)
where
  go (o : JSObj) : List (List Char) → JSVal
    | [] => .obj o
    | [k] => jsGetCI o (String.mk k)
    | k :: rest =>
      match jsGetCI o (String.mk k) with
      | .obj inner => go inner rest
      | _ => (.undef)

/-- Modelled from the spec: apply one comparison operator to the stored
value resolved from the record and the filter's literal value. -/
def evalCompare (op : String) (stored value : JSVal) : Bool :=
  if op = "pr" then !(stored.jsStrictEq .null) && !(stored.jsStrictEq .undef)
  else if op = "eq" then matchEquality stored value
  else if op = "ne" then !matchEquality stored value
  else if op = "co" then
    match stored with
    | .str s => strHasSub (lowerStr s) (lowerStr value.jsToString)
    | _ => false
  else if op = "sw" then
    match stored with
    | .str s => strStarts (lowerStr s) (lowerStr value.jsToString)
    | _ => false
  else if op = "ew" then
    match stored with
    | .str s => strEnds (lowerStr s) (lowerStr value.jsToString)
    | _ => false
  else if op = "gt" then compareOrdered stored value "gt"
  else if op = "ge" then compareOrdered stored value "gte"
  else if op = "lt" then compareOrdered stored value "lt"
  else if op = "le" then compareOrdered stored value "lte"
  else false

/-- Modelled from the spec: `evaluateFilter(node, record)` — the in-memory
ground-truth evaluator (§4.2). -/
def evaluateFilter : FilterNode → JSObj → Bool
  | .compare attrPath op value, record =>
    evalCompare op (resolveAttr record attrPath) value
  | .logical op left right, record =>
    if op = "and" then evaluateFilter left record && evaluateFilter right record
    else if op = "or" then evaluateFilter left record || evaluateFilter right record
    else false
  | .notNode inner, record => !evaluateFilter inner record
  | .valuePath attrPath innerFilter, record =>
    match resolveAttr record attrPath with
    | .arr elems =>
      elems.any fun e =>
        match e with
        | .obj o => evaluateFilter innerFilter o
        | _ => false
    | _ => false

/-- `buildFilterResult`'s shape: the DB where clause, the optional
in-memory fallback predicate, and the fetch-all flag. -/
structure FilterResult where
  dbWhere : JSObj
  inMemoryFilter : Option (JSObj → Bool)
  fetchAll : Bool

/-- `buildFilterResult` — full DB push-down when possible, otherwise the
in-memory fallback over the complete set. -/
def buildFilterResult (ast : FilterNode) (columnMap : ColumnMap) : FilterResult :=
  match tryPushToDb ast columnMap with
  | some dbClause => { dbWhere := dbClause, inMemoryFilter := none, fetchAll := false }
  | none =>
    { dbWhere := [], fetchAll := true,
      inMemoryFilter := some (fun resource => evaluateFilter ast resource) }

/-! ## patch-types.ts / patch-error.ts -/

/-- `PatchError` — domain-layer PATCH failure: HTTP status, detail
message, SCIM error type. -/
structure PatchError where
  status : Nat
  detail : String
  scimType : Option String
deriving DecidableEq

/-- A single SCIM PATCH operation; `path` is optional and `value` reads as
`undefined` when the request omitted it (as JS property access does). -/
structure PatchOperation where
  op : String
  path : Option String
  value : JSVal

/-- Configuration flags controlling the user PATCH engine. -/
structure PatchConfig where
  verbosePatch : Bool

/-- Configuration flags for group member PATCH behaviour. -/
structure GroupMemberPatchConfig where
  allowMultiMemberAdd : Bool
  allowMultiMemberRemove : Bool
  allowRemoveAllMembers : Bool

/-- Current user state provided by the service before PATCH application.
`displayName`/`externalId` are nullable strings (`none` = JS `null`). -/
structure UserPatchState where
  userName : String
  displayName : Option String
  externalId : Option String
  active : Bool
  rawPayload : JSObj

/-- First-class DB column values extracted during user PATCH operations. -/
structure UserExtractedFields where
  userName : String
  displayName : Option String
  externalId : Option String
  active : Bool

/-- The result of applying PATCH operations to a user resource payload. -/
structure UserPatchResult where
  payload : JSObj
  extractedFields : UserExtractedFields

/-- A group member DTO as the engine constructs it.  `toMemberDto` copies
the `value`/`display`/`type` properties without further validation, so the
fields hold arbitrary JS values (`undef` when absent). -/
structure GroupMemberDto where
  value : JSVal
  display : JSVal
  type : JSVal

/-- Current group state provided by the service before PATCH application. -/
structure GroupPatchState where
  displayName : String
  externalId : Option String
  members : List GroupMemberDto
  rawPayload : JSObj

/-- The result of applying PATCH operations to a group resource. -/
structure GroupPatchResult where
  displayName : String
  externalId : Option String
  payload : JSObj
  members : List GroupMemberDto

/-- JS `typeof` tag of a value (arrays and `null` report `"object"`). -/
def jsTypeOf : JSVal → String
  | .null => "object"
  | .undef => "undefined"
  | .bool _ => "boolean"
  | .num _ => "number"
  | .str _ => "string"
  | .arr _ => "object"
  | .obj _ => "object"

/-- Truthiness of the optional `path` string (`undefined` and `""` falsy). -/
def pathTruthy : Option String → Bool
  | none => false
  | some p => p ≠ ""

/-- Does the (lower-cased) optional path equal the given literal? -/
def pathIs (path : Option String) (s : String) : Bool :=
  match path with
  | some p => p = s
  | none => false

/-! ## scim-patch-path.ts helpers.

Modelled from the spec: `scim-patch-path.ts` is imported by
`user-patch-engine.ts` but is not among the provided sources.  The
definitions below follow spec §4.4: extension paths are
`urn:...:subAttr` (URN prefix as object key, sub-attribute after the last
colon); value-paths are `attr[field eq "v"]` optionally followed by
`.subAttr`, with the structural updates locating or creating the parent
container before assigning; the no-path merge writes the update object's
entries over the payload. -/

/-- Modelled from the spec: a path addresses an extension schema iff it
carries the URN prefix. -/
def isExtensionPath (p : String) : Bool := strStarts p "urn:"

/-- Modelled from the spec: split an extension path into the URN object
key and the sub-attribute after the last colon; `none` when the
sub-attribute is empty (resolution failure, skipped by the engine). -/
def parseExtensionPath (p : String) : Option (String × String) :=
  let parts := p.splitOn ":"
  match parts.getLast? with
  | none => none
  | some sub =>
    if sub = "" ∨ parts.length < 2 then none
    else some (String.intercalate ":" parts.dropLast, sub)

/-- Modelled from the spec: set the sub-attribute inside the extension
object, creating the parent container when absent or non-object. -/
def applyExtensionUpdate (payload : JSObj) (urn sub : String) (value : JSVal) : JSObj :=
  let inner :=
    match jsGet payload urn with
    | .obj o => o
    | _ => []
  jsSet payload urn (.obj (jsSet inner sub value))

/-- Modelled from the spec: delete the sub-attribute from the extension
object when it exists. -/
def removeExtensionAttribute (payload : JSObj) (urn sub : String) : JSObj :=
  match jsGet payload urn with
  | .obj o => jsSet payload urn (.obj (jsDelete o sub))
  | _ => payload

/-- Modelled from the spec: a path is a value-path iff it carries a
bracketed element filter. -/
def isValuePath (p : String) : Bool := strHasChar p '['

/-- A parsed value-path: attribute, element-selector field and value, and
the optional sub-attribute after the closing bracket. -/
structure ValuePathRef where
  attr : String
  field : String
  fval : String
  subAttr : Option String

/-- Modelled from the spec: parse `attr[field eq "v"]` with optional
`.subAttr` tail; `none` on malformed input (skipped by the engine). -/
def parseValuePath (p : String) : Option ValuePathRef :=
  match p.splitOn "[" with
  | [attr, rest] =>
    if attr = "" then none
    else
      match rest.splitOn "]" with
      | [inner, tail] =>
        let sub :=
          if tail = "" then some none
          else if strStarts tail "." then some (some (String.mk (tail.data.drop 1)))
          else none
        match sub with
        | none => none
        | some subAttr =>
          match (inner.splitOn " ").filter (fun t => t ≠ "") with
          | [field, kw, rawVal] =>
            if lowerStr kw = "eq" then
              let v :=
                if strStarts rawVal "\"" ∧ strEnds rawVal "\"" ∧ rawVal.length ≥ 2 then
                  String.mk (rawVal.data.drop 1).dropLast
                else rawVal
              some ⟨attr, field, v, subAttr⟩
            else none
          | _ => none
      | _ => none
  | _ => none

/-- Does a list element match the value-path's element selector? -/
def elemMatchesVP (vp : ValuePathRef) (el : JSVal) : Bool :=
  match el with
  | .obj o => (jsGet o vp.field).jsStrictEq (.str vp.fval)
  | _ => false

/-- The payload attribute as an element list (created empty when absent
or non-array — locate-or-create of the parent container). -/
def vpElems (payload : JSObj) (attr : String) : List JSVal :=
  match jsGet payload attr with
  | .arr es => es
  | _ => []

/-- Modelled from the spec: `replace` over a value-path assigns the
sub-attribute on (or substitutes) every matching element. -/
def applyValuePathUpdate (payload : JSObj) (vp : ValuePathRef) (value : JSVal) : JSObj :=
  let es := vpElems payload vp.attr
  let es' := es.map fun el =>
    if elemMatchesVP vp el then
      match vp.subAttr with
      | some s =>
        match el with
        | .obj o => .obj (jsSet o s value)
        | _ => el
      | none => value
    else el
  jsSet payload vp.attr (.arr es')

/-- Modelled from the spec: `add` over a value-path updates matching
elements like `replace`, and appends a fresh element carrying the selector
field when nothing matches. -/
def addValuePathEntry (payload : JSObj) (vp : ValuePathRef) (value : JSVal) : JSObj :=
  let es := vpElems payload vp.attr
  if es.any (elemMatchesVP vp) then applyValuePathUpdate payload vp value
  else
    let fresh :=
      match vp.subAttr with
      | some s => JSVal.obj (jsSet [(vp.field, .str vp.fval)] s value)
      | none => value
    jsSet payload vp.attr (.arr (es ++ [fresh]))

/-- Modelled from the spec: `remove` over a value-path deletes the
sub-attribute from matching elements, or the matching elements themselves
when no sub-attribute is given. -/
def removeValuePathEntry (payload : JSObj) (vp : ValuePathRef) : JSObj :=
  let es := vpElems payload vp.attr
  match vp.subAttr with
  | some s =>
    jsSet payload vp.attr (.arr (es.map fun el =>
      if elemMatchesVP vp el then
        match el with
        | .obj o => .obj (jsDelete o s)
        | _ => el
      else el))
  | none =>
    jsSet payload vp.attr (.arr (es.filter fun el => !elemMatchesVP vp el))

/-- Modelled from the spec: the no-path merge writes the (already
key-normalized) update object's entries over the payload. -/
def resolveNoPathValue (payload : JSObj) (updateObj : JSObj) : JSObj :=
  updateObj.foldl (fun acc e => jsSet acc e.1 e.2) payload

/-! ## user-patch-engine.ts -/

namespace UserPatchEngine

/-- `CANONICAL_KEY_MAP` — lowercase attribute name to canonical camelCase. -/
def CANONICAL_KEY_MAP : List (String × String) :=
  [ ("username", "userName"), ("externalid", "externalId"),
    ("active", "active"), ("displayname", "displayName"),
    ("name", "name"), ("nickname", "nickName"),
    ("profileurl", "profileUrl"), ("title", "title"),
    ("usertype", "userType"), ("preferredlanguage", "preferredLanguage"),
    ("locale", "locale"), ("timezone", "timezone"),
    ("emails", "emails"), ("phonenumbers", "phoneNumbers"),
    ("addresses", "addresses"), ("photos", "photos"),
    ("ims", "ims"), ("roles", "roles"),
    ("entitlements", "entitlements"), ("x509certificates", "x509Certificates") ]

/-- `RESERVED_ATTRIBUTES` — server-managed keys never stored in the payload. -/
def RESERVED_ATTRIBUTES : List String :=
  ["id", "username", "userid", "userName", "externalid", "externalId", "active"]

/-- `RESERVED_ATTRIBUTES.has(key) || RESERVED_ATTRIBUTES.has(key.toLowerCase())`. -/
def isReservedKey (k : String) : Bool :=
  RESERVED_ATTRIBUTES.contains k || RESERVED_ATTRIBUTES.contains (lowerStr k)

/-- `stripReservedAttributes` — drop every reserved key from the payload. -/
def stripReservedAttributes (payload : JSObj) : JSObj :=
  payload.filter (fun e => !isReservedKey e.1)

/-- `normalizeObjectKeys` — canonical camelCase for known SCIM attributes,
unknown keys preserved as-is. -/
def normalizeObjectKeys (obj : JSObj) : JSObj :=
  obj.foldl (fun result e =>
    let canonical :=
      match cmapKey (lowerStr e.1) with
      | some c => c
      | none => e.1
    jsSet result canonical e.2) []
where
  /-- `CANONICAL_KEY_MAP[key.toLowerCase()]`. -/
  cmapKey (k : String) : Option String :=
    (CANONICAL_KEY_MAP.find? (fun m => m.1 = k)).map (·.2)

/-- The `InvalidValue` failure thrown by `extractBooleanValue`. -/
def boolValueError (value : JSVal) : PatchError :=
  ⟨400, "Patch operation requires boolean value for active. Received: " ++
        jsTypeOf value ++ " \"" ++ value.jsToString ++ "\"",
   some "invalidValue"⟩

/-- `extractBooleanValue` — coerce booleans, the case-insensitive strings
true/false, and a nested object carrying an `active` property of one of
those shapes; anything else is an `invalidValue` failure. -/
def extractBooleanValue (value : JSVal) : Except PatchError Bool :=
  match value with
  | .bool b => .ok b
  | .str s =>
    if lowerStr s = "true" then .ok true
    else if lowerStr s = "false" then .ok false
    else .error (boolValueError value)
  | .obj o =>
    if jsHasKey o "active" then
      match jsGet o "active" with
      | .bool b => .ok b
      | .str s =>
        if lowerStr s = "true" then .ok true
        else if lowerStr s = "false" then .ok false
        else .error (boolValueError value)
      | _ => .error (boolValueError value)
    else .error (boolValueError value)
  | _ => .error (boolValueError value)

/-- `extractStringValue` — strings pass through, all else is `invalidValue`. -/
def extractStringValue (value : JSVal) (attrName : String) : Except PatchError String :=
  match value with
  | .str s => .ok s
  | _ => .error ⟨400, attrName ++ " must be provided as a string.", some "invalidValue"⟩

/-- `extractNullableStringValue` — `null`/`undefined` yield `none`,
strings pass through, all else is `invalidValue`. -/
def extractNullableStringValue (value : JSVal) (attrName : String) :
    Except PatchError (Option String) :=
  match value with
  | .null => .ok none
  | .undef => .ok none
  | .str s => .ok (some s)
  | _ => .error ⟨400, attrName ++ " must be provided as a string or null.",
                 some "invalidValue"⟩

/-- A nullable string as the JS value stored back into the payload. -/
def nullableVal : Option String → JSVal
  | some s => .str s
  | none => .null

/-- `removeAttribute` — delete a payload key case-insensitively. -/
def removeAttribute (payload : JSObj) (attrName : String) : JSObj :=
  if attrName = "" then payload
  else payload.filter (fun e => lowerStr e.1 ≠ lowerStr attrName)

/-- `applyDotNotation` (value-level semantics of lines 286-304): assign the
child attribute inside the parent object, locating the parent key
case-insensitively and creating the container when it is not an object.
(The source performs the assignment in place on the nested object; the
aliasing consequences are analysed separately with the heap model below.) -/
def applyDotNotation (rawPayload : JSObj) (originalPath : String) (value : JSVal) : JSObj :=
  let parentAttr := String.mk (originalPath.data.takeWhile (fun c => c ≠ '.'))
  let childAttr := String.mk ((originalPath.data.dropWhile (fun c => c ≠ '.')).drop 1)
  let parentKey :=
    match rawPayload.find? (fun e => lowerStr e.1 = lowerStr parentAttr) with
    | some e => e.1
    | none => parentAttr
  match jsGet rawPayload parentKey with
  | .obj o => jsSet rawPayload parentKey (.obj (jsSet o childAttr value))
  | _ => jsSet rawPayload parentKey (.obj [(childAttr, value)])

/-- The parent attribute of a verbose dot path (text before the first dot). -/
def parentAttrOf (p : String) : String :=
  String.mk (p.data.takeWhile (fun c => c ≠ '.'))

/-- The child attribute of a verbose dot path (text after the first dot). -/
def childAttrOf (p : String) : String :=
  String.mk ((p.data.dropWhile (fun c => c ≠ '.')).drop 1)

/-- The payload key `applyDotNotation` writes to: the first key whose
lowercase form matches the parent attribute, else the parent attribute. -/
def dotParentKey (rawPayload : JSObj) (parentAttr : String) : String :=
  match rawPayload.find? (fun e => lowerStr e.1 = lowerStr parentAttr) with
  | some e => e.1
  | none => parentAttr

/-- The object value `applyDotNotation` stores under the parent key. -/
def dotG (childAttr : String) (value : JSVal) (x : JSVal) : JSVal :=
  JSVal.obj (match x with
    | JSVal.obj o => jsSet o childAttr value
    | _ => [(childAttr, value)])

/-- `removeDotNotation` — delete the child attribute inside the parent
object when the parent resolves to an object. -/
def removeDotNotation (rawPayload : JSObj) (originalPath : String) : JSObj :=
  let parentAttr := String.mk (originalPath.data.takeWhile (fun c => c ≠ '.'))
  let childAttr := String.mk ((originalPath.data.dropWhile (fun c => c ≠ '.')).drop 1)
  let parentKey :=
    match rawPayload.find? (fun e => lowerStr e.1 = lowerStr parentAttr) with
    | some e => e.1
    | none => parentAttr
  match jsGet rawPayload parentKey with
  | .obj o => jsSet rawPayload parentKey (.obj (jsDelete o childAttr))
  | _ => rawPayload

/-- The no-path add/replace object-merge branch (lines 217-237): normalize
keys, extract the first-class fields, merge the rest. -/
def applyNoPathMerge (value : JSVal) (st : UserPatchState) :
    Except PatchError UserPatchState := do
  let updateObj := normalizeObjectKeys (jsEntries value)
  let mut0 := st
  let (updateObj, st1) ←
    if jsHasKey updateObj "userName" then do
      let s ← extractStringValue (jsGet updateObj "userName") "userName"
      pure (jsDelete updateObj "userName", { mut0 with userName := s })
    else pure (updateObj, mut0)
  let st2 ←
    if jsHasKey updateObj "displayName" then do
      let v ← extractNullableStringValue (jsGet updateObj "displayName") "displayName"
      -- displayName stays in updateObj: it must remain in the payload
      pure { st1 with displayName := v }
    else pure st1
  let (updateObj, st3) ←
    if jsHasKey updateObj "externalId" then do
      let v ← extractNullableStringValue (jsGet updateObj "externalId") "externalId"
      pure (jsDelete updateObj "externalId", { st2 with externalId := v })
    else pure (updateObj, st2)
  let (updateObj, st4) ←
    if jsHasKey updateObj "active" then do
      let b ← extractBooleanValue (jsGet updateObj "active")
      pure (jsDelete updateObj "active", { st3 with active := b })
    else pure (updateObj, st3)
  .ok { st4 with rawPayload := resolveNoPathValue st4.rawPayload updateObj }

/-- `applyAddOrReplace` — dispatch one add/replace operation over the
first-class fields, extension paths, value-paths, dot-notation, plain
payload keys, and the no-path object merge, in source order. -/
def applyAddOrReplace (op : String) (originalPath : Option String) (value : JSVal)
    (st : UserPatchState) (config : PatchConfig) : Except PatchError UserPatchState :=
  let path := originalPath.map lowerStr
  if pathIs path "active" then do
    let b ← extractBooleanValue value
    .ok { st with active := b, rawPayload := jsSet st.rawPayload "active" (.bool b) }
  else if pathIs path "username" then do
    let s ← extractStringValue value "userName"
    .ok { st with userName := s }
  else if pathIs path "displayname" then do
    let v ← extractNullableStringValue value "displayName"
    .ok { st with displayName := v,
                  rawPayload := jsSet st.rawPayload "displayName" (nullableVal v) }
  else if pathIs path "externalid" then do
    let v ← extractNullableStringValue value "externalId"
    .ok { st with externalId := v }
  else
    match originalPath with
    | some p =>
      if p ≠ "" ∧ isExtensionPath p then
        match parseExtensionPath p with
        | some (urn, sub) =>
          .ok { st with rawPayload := applyExtensionUpdate st.rawPayload urn sub value }
        | none => .ok st
      else if p ≠ "" ∧ isValuePath p then
        match parseValuePath p with
        | some vp =>
          .ok { st with rawPayload :=
                  if op = "add" then addValuePathEntry st.rawPayload vp value
                  else applyValuePathUpdate st.rawPayload vp value }
        | none => .ok st
      else if config.verbosePatch ∧ p ≠ "" ∧ strHasChar p '.' then
        .ok { st with rawPayload := applyDotNotation st.rawPayload p value }
      else if p ≠ "" then
        .ok { st with rawPayload := jsSet st.rawPayload p value }
      else if value.isObjectLike then applyNoPathMerge value st
      else .ok st
    | none =>
      if value.isObjectLike then applyNoPathMerge value st
      else .ok st

/-- The `noTarget` failure for a remove without a path. -/
def noTargetError : PatchError :=
  ⟨400, "Remove operation requires a path.", some "noTarget"⟩

/-- `applyRemove` — dispatch one remove operation in source order. -/
def applyRemove (originalPath : Option String) (st : UserPatchState)
    (config : PatchConfig) : Except PatchError UserPatchState :=
  let path := originalPath.map lowerStr
  if pathIs path "active" then
    .ok { st with active := false, rawPayload := jsSet st.rawPayload "active" (.bool false) }
  else
    match originalPath with
    | some p =>
      if p ≠ "" ∧ isExtensionPath p then
        match parseExtensionPath p with
        | some (urn, sub) =>
          .ok { st with rawPayload := removeExtensionAttribute st.rawPayload urn sub }
        | none => .ok st
      else if p ≠ "" ∧ isValuePath p then
        match parseValuePath p with
        | some vp => .ok { st with rawPayload := removeValuePathEntry st.rawPayload vp }
        | none => .ok st
      else if config.verbosePatch ∧ p ≠ "" ∧ strHasChar p '.' then
        .ok { st with rawPayload := removeDotNotation st.rawPayload p }
      else if p ≠ "" then
        .ok { st with rawPayload := removeAttribute st.rawPayload p }
      else .error noTargetError
    | none => .error noTargetError

/-- The `invalidValue` failure for an unsupported operation token. -/
def unsupportedOpError (op : String) : PatchError :=
  ⟨400, "Patch operation '" ++ op ++ "' is not supported.", some "invalidValue"⟩

/-- The operation-folding loop of `UserPatchEngine.apply`. -/
def applyOps (operations : List PatchOperation) (st : UserPatchState)
    (config : PatchConfig) : Except PatchError UserPatchState :=
  match operations with
  | [] => .ok st
  | operation :: rest => do
    let op := lowerStr operation.op
    if ¬(op = "add" ∨ op = "replace" ∨ op = "remove") then
      .error (unsupportedOpError operation.op)
    else
      let st' ←
        if op = "add" ∨ op = "replace" then
          applyAddOrReplace op operation.path operation.value st config
        else applyRemove operation.path st config
      applyOps rest st' config

/-- `UserPatchEngine.apply` — fold the operations over the state, then
strip the reserved attributes and return payload + extracted fields. -/
def apply (operations : List PatchOperation) (state : UserPatchState)
    (config : PatchConfig) : Except PatchError UserPatchResult := do
  let final ← applyOps operations state config
  .ok { payload := stripReservedAttributes final.rawPayload,
        extractedFields :=
          { userName := final.userName, displayName := final.displayName,
            externalId := final.externalId, active := final.active } }

end UserPatchEngine

/-! ## group-patch-engine.ts -/

namespace GroupPatchEngine

/-- `toMemberDto` — require an object carrying a `value` property; copy
`value`/`display`/`type` without further validation. -/
def toMemberDto (member : JSVal) : Except PatchError GroupMemberDto :=
  match member with
  | .obj o =>
    if jsHasKey o "value" then
      .ok ⟨jsGet o "value", jsGet o "display", jsGet o "type"⟩
    else .error ⟨400, "Member object must include a value property.", some "invalidValue"⟩
  | _ => .error ⟨400, "Member object must include a value property.", some "invalidValue"⟩

/-- One step of the `Map.set` loop inside `ensureUniqueMembers`: an
existing key keeps its slot and takes the new member, a new key is
appended.  Key comparison is JS `Map`'s SameValueZero, which on the
scalar member values coincides with strict equality. -/
def mapInsert (seen : List (JSVal × GroupMemberDto)) (k : JSVal) (m : GroupMemberDto) :
    List (JSVal × GroupMemberDto) :=
  match seen with
  | [] => [(k, m)]
  | (k', m') :: rest =>
    if k'.jsStrictEq k then (k', m) :: rest else (k', m') :: mapInsert rest k m

/-- `ensureUniqueMembers` — deduplicate by `value`, last occurrence wins,
insertion order preserved. -/
def ensureUniqueMembers (members : List GroupMemberDto) : List GroupMemberDto :=
  (members.foldl (fun seen m => mapInsert seen m.value m) []).map (·.2)

/-- Regex model for `path.match(/^members\[value\s+eq\s+"?([^"]+)"?\]$/i)`
on the already lower-cased path: the captured member value, or `none`. -/
def memberFilterCapture (p : String) : Option String :=
  match listStrip "members[value".data p.data with
  | none => none
  | some r1 =>
    match dropWsPlus r1 with
    | none => none
    | some r2 =>
      match listStrip "eq".data r2 with
      | none => none
      | some r3 =>
        match dropWsPlus r3 with
        | none => none
        | some r4 =>
          let body := if r4.head? = some '"' then r4.drop 1 else r4
          match body.getLast? with
          | some ']' =>
            let core := body.dropLast
            let core := if core.getLast? = some '"' then core.dropLast else core
            if core ≠ [] ∧ ¬core.contains '"' then some (String.mk core) else none
          | _ => none
where
  /-- Strip an exact prefix, or fail. -/
  listStrip : List Char → List Char → Option (List Char)
    | [], l => some l
    | _ :: _, [] => none
    | p :: ps, c :: cs => if p = c then listStrip ps cs else none
  /-- `\s+`: at least one whitespace character, then any further run. -/
  dropWsPlus (l : List Char) : Option (List Char) :=
    match l with
    | c :: rest =>
      if c = ' ' ∨ c = '\t' ∨ c = '\n' ∨ c = '\r' then
        some (rest.dropWhile (fun d => d = ' ' ∨ d = '\t' ∨ d = '\n' ∨ d = '\r'))
      else none
    | [] => none

/-- The `invalidPath` failure of `handleReplace` for unsupported paths. -/
def replacePathError (path : Option String) : PatchError :=
  ⟨400, "Patch path '" ++ path.getD "" ++ "' is not supported.", some "invalidPath"⟩

/-- `handleReplace` — replace displayName/externalId/members or merge a
no-path value, in source order. -/
def handleReplace (operation : PatchOperation) (currentDisplayName : String)
    (currentExternalId : Option String) (members : List GroupMemberDto)
    (rawPayload : JSObj) : Except PatchError GroupPatchState :=
  let path := operation.path.map lowerStr
  if ¬pathTruthy operation.path then
    match operation.value with
    | .str s => .ok ⟨s, currentExternalId, members, rawPayload⟩
    | v =>
      if v.isObjectLike then do
        let newDisplayName :=
          match jsGetVal v "displayName" with
          | .str s => s
          | _ => currentDisplayName
        let newExternalId :=
          if jsHasKeyVal v "externalId" then
            match jsGetVal v "externalId" with
            | .str s => some s
            | _ => none
          else currentExternalId
        let newMembers ←
          match jsGetVal v "members" with
          | .arr ms => do
            let dtos ← ms.mapM toMemberDto
            pure (ensureUniqueMembers dtos)
          | _ => pure members
        let updatedPayload :=
          (jsEntries v).foldl (fun acc e =>
            if e.1 ≠ "displayName" ∧ e.1 ≠ "externalId" ∧ e.1 ≠ "members" ∧
               e.1 ≠ "schemas" then jsSet acc e.1 e.2
            else acc) rawPayload
        .ok ⟨newDisplayName, newExternalId, newMembers, updatedPayload⟩
      else
        .error ⟨400, "Replace operation requires a string or object value.",
                some "invalidValue"⟩
  else if pathIs path "displayname" then
    match operation.value with
    | .str s => .ok ⟨s, currentExternalId, members, rawPayload⟩
    | _ => .error ⟨400, "Replace operation for displayName requires a string value.",
                   some "invalidValue"⟩
  else if pathIs path "externalid" then
    let newExtId :=
      match operation.value with
      | .str s => some s
      | _ => none
    .ok ⟨currentDisplayName, newExtId, members, rawPayload⟩
  else if pathIs path "members" then
    match operation.value with
    | .arr ms => do
      let normalized ← ms.mapM toMemberDto
      .ok ⟨currentDisplayName, currentExternalId, ensureUniqueMembers normalized, rawPayload⟩
    | _ => .error ⟨400, "Replace operation for members requires an array value.",
                   some "invalidValue"⟩
  else .error (replacePathError operation.path)

/-- The multi-member-add `invalidValue` failure of `handleAdd`. -/
def multiAddError : PatchError :=
  ⟨400, "Adding multiple members in a single operation is not allowed. " ++
        "Each member must be added in a separate PATCH operation. " ++
        "To enable multi-member add, set endpoint config flag " ++
        "\"MultiOpPatchRequestAddMultipleMembersToGroup\" to \"True\".",
   some "invalidValue"⟩

/-- `handleAdd` — append normalized members (deduplicated), enforcing the
path restriction, value presence and the multi-member-add flag. -/
def handleAdd (operation : PatchOperation) (members : List GroupMemberDto)
    (allowMultiMemberAdd : Bool) : Except PatchError (List GroupMemberDto) :=
  let path := operation.path.map lowerStr
  if pathTruthy operation.path ∧ ¬pathIs path "members" then
    .error ⟨400, "Add operation path '" ++ operation.path.getD "" ++
                 "' is not supported.", some "invalidPath"⟩
  else if ¬operation.value.jsTruthy then
    .error ⟨400, "Add operation for members requires a value.", some "invalidValue"⟩
  else
    let value :=
      match operation.value with
      | .arr es => es
      | v => [v]
    if ¬allowMultiMemberAdd ∧ value.length > 1 then .error multiAddError
    else do
      let newMembers ← value.mapM toMemberDto
      .ok (ensureUniqueMembers (members ++ newMembers))

/-- The multi-member-remove `invalidValue` failure of `handleRemove`. -/
def multiRemoveError : PatchError :=
  ⟨400, "Removing multiple members in a single operation is not allowed. " ++
        "Each member must be removed in a separate PATCH operation. " ++
        "To enable multi-member remove, set endpoint config flag " ++
        "\"MultiOpPatchRequestRemoveMultipleMembersFromGroup\" to \"True\".",
   some "invalidValue"⟩

/-- The remove-all-members `invalidValue` failure of `handleRemove`. -/
def removeAllError : PatchError :=
  ⟨400, "Removing all members via path=members is not allowed. " ++
        "Specify members to remove using a value array or path filter like " ++
        "members[value eq \"user-id\"]. " ++
        "To enable remove-all, set endpoint config flag " ++
        "\"PatchOpAllowRemoveAllMembers\" to \"True\".",
   some "invalidValue"⟩

/-- `handleRemove` — the value-array branch is checked first, then the
`members[value eq ...]` path filter, then bare `path=members`, else an
`invalidPath` failure. -/
def handleRemove (operation : PatchOperation) (members : List GroupMemberDto)
    (allowMultiMemberRemove : Bool) (allowRemoveAllMembers : Bool) :
    Except PatchError (List GroupMemberDto) :=
  let path := operation.path.map lowerStr
  match operation.value with
  | .arr (x :: xs) =>
    if ¬allowMultiMemberRemove ∧ (x :: xs).length > 1 then .error multiRemoveError
    else
      let membersToRemove := (x :: xs).filterMap fun item =>
        match item with
        | .obj o => if jsHasKey o "value" then some (jsGet o "value") else none
        | _ => none
      .ok (members.filter fun m => ¬membersToRemove.any (fun r => r.jsStrictEq m.value))
  | _ =>
    match path.bind (fun p => memberFilterCapture p) with
    | some valueToRemove =>
      .ok (members.filter fun m => ¬m.value.jsStrictEq (.str valueToRemove))
    | none =>
      if pathIs path "members" then
        if ¬allowRemoveAllMembers then .error removeAllError
        else .ok []
      else
        .error ⟨400, "Remove operation path '" ++ operation.path.getD "" ++
                     "' is not supported for groups.", some "invalidPath"⟩

/-- The operation-folding loop of `GroupPatchEngine.apply`. -/
def applyOps (operations : List PatchOperation) (st : GroupPatchState)
    (config : GroupMemberPatchConfig) : Except PatchError GroupPatchState :=
  match operations with
  | [] => .ok st
  | operation :: rest => do
    let op := lowerStr operation.op
    if ¬(op = "add" ∨ op = "replace" ∨ op = "remove") then
      .error (UserPatchEngine.unsupportedOpError operation.op)
    else do
      let st' ←
        if op = "replace" then
          handleReplace operation st.displayName st.externalId st.members st.rawPayload
        else if op = "add" then do
          let ms ← handleAdd operation st.members config.allowMultiMemberAdd
          pure { st with members := ms }
        else do
          let ms ← handleRemove operation st.members config.allowMultiMemberRemove
                     config.allowRemoveAllMembers
          pure { st with members := ms }
      applyOps rest st' config

/-- `GroupPatchEngine.apply` — fold the operations and return the display
fields, payload and member list. -/
def apply (operations : List PatchOperation) (state : GroupPatchState)
    (config : GroupMemberPatchConfig) : Except PatchError GroupPatchResult := do
  let final ← applyOps operations state config
  .ok { displayName := final.displayName, externalId := final.externalId,
        payload := final.rawPayload, members := final.members }

end GroupPatchEngine

/-- Re-read a user PATCH result as the input state of a follow-up `apply`
call (the service persists exactly these fields and the payload). -/
def userStateOfResult (res : UserPatchResult) : UserPatchState :=
  ⟨res.extractedFields.userName, res.extractedFields.displayName,
   res.extractedFields.externalId, res.extractedFields.active, res.payload⟩

/-- Re-read a group PATCH result as the input state of a follow-up `apply`
call. -/
def groupStateOfResult (res : GroupPatchResult) : GroupPatchState :=
  ⟨res.displayName, res.externalId, res.members, res.payload⟩

/-! ## Heap model of `UserPatchEngine.apply` aliasing behaviour

`apply` copies the payload with a top-level spread (`{ ...state.rawPayload }`,
line 100) and `applyDotNotation`/`removeDotNotation` (lines 286-320) write
through the nested reference in place (`existing[childAttr] = value`,
`delete existing[childAttr]`).  To state what the caller observes across a
thrown failure we model JS objects as heap cells: `HVal.ref a` is a
reference to the object stored at address `a`; scalars stay inline.  The
dispatcher below mirrors the branch order of `applyAddOrReplace` and
`applyRemove` on the heap-relevant branches (the `active` update, verbose
dot-notation, plain top-level writes and removes); the extension,
value-path and no-path-merge branches, whose helpers live in the absent
`scim-patch-path.ts`, are modelled as heap-preserving and are not
exercised by the inputs examined below. -/

/-- A heap value: an inline scalar or a reference to a heap object. -/
inductive HVal where
  | prim : JSVal → HVal
  | ref : Nat → HVal

/-- A heap object: insertion-ordered fields holding scalars or references. -/
abbrev HObj := List (String × HVal)

/-- The heap: objects addressed by allocation index. -/
abbrev Heap := List HObj

/-- Dereference an address (reads of unallocated addresses yield `{}`). -/
def heapGet (h : Heap) (a : Nat) : HObj := h.getD a []

/-- Overwrite the object stored at an address. -/
def heapSet (h : Heap) (a : Nat) (o : HObj) : Heap := h.set a o

/-- Property read on a heap object. -/
def hGet (o : HObj) (k : String) : Option HVal :=
  (o.find? (fun e => e.1 = k)).map (·.2)

/-- Property write on a heap object (replace in place or append). -/
def hSet (o : HObj) (k : String) (v : HVal) : HObj :=
  match o with
  | [] => [(k, v)]
  | (k', v') :: rest => if k' = k then (k', v) :: rest else (k', v') :: hSet rest k v

/-- Property deletion on a heap object. -/
def hDelete (o : HObj) (k : String) : HObj := o.filter (fun e => e.1 ≠ k)

/-- Heap-level user patch state: the extracted fields plus the address of
the payload object the engine works on. -/
structure UserPatchStateH where
  userName : String
  displayName : Option String
  externalId : Option String
  active : Bool
  payloadAddr : Nat

/-- `applyDotNotation` (lines 286-304) at heap level: when the parent key
holds an object reference the child attribute is assigned THROUGH the
reference, mutating the shared object; otherwise a fresh one-field object
is allocated and linked from the payload copy. -/
def applyDotNotationH (heap : Heap) (addr : Nat) (originalPath : String)
    (value : JSVal) : Heap :=
  let parentAttr := String.mk (originalPath.data.takeWhile (fun c => c ≠ '.'))
  let childAttr := String.mk ((originalPath.data.dropWhile (fun c => c ≠ '.')).drop 1)
  let o := heapGet heap addr
  let parentKey :=
    match o.find? (fun e => lowerStr e.1 = lowerStr parentAttr) with
    | some e => e.1
    | none => parentAttr
  match hGet o parentKey with
  | some (HVal.ref a) =>
    heapSet heap a (hSet (heapGet heap a) childAttr (HVal.prim value))
  | _ =>
    let fresh := heap.length
    heapSet (heap ++ [[(childAttr, HVal.prim value)]]) addr
      (hSet o parentKey (HVal.ref fresh))

/-- `removeDotNotation` (lines 305-320) at heap level: the child attribute
is deleted through the nested reference, mutating the shared object. -/
def removeDotNotationH (heap : Heap) (addr : Nat) (originalPath : String) : Heap :=
  let parentAttr := String.mk (originalPath.data.takeWhile (fun c => c ≠ '.'))
  let childAttr := String.mk ((originalPath.data.dropWhile (fun c => c ≠ '.')).drop 1)
  let o := heapGet heap addr
  let parentKey :=
    match o.find? (fun e => lowerStr e.1 = lowerStr parentAttr) with
    | some e => e.1
    | none => parentAttr
  match hGet o parentKey with
  | some (HVal.ref a) => heapSet heap a (hDelete (heapGet heap a) childAttr)
  | _ => heap

/-- `applyAddOrReplace` at heap level (heap-relevant branches, source
order preserved). -/
def applyAddOrReplaceH (heap : Heap) (originalPath : Option String)
    (value : JSVal) (st : UserPatchStateH) (config : PatchConfig) :
    Except PatchError (Heap × UserPatchStateH) :=
  let path := originalPath.map lowerStr
  if pathIs path "active" then do
    let b ← UserPatchEngine.extractBooleanValue value
    .ok (heapSet heap st.payloadAddr
          (hSet (heapGet heap st.payloadAddr) "active" (HVal.prim (.bool b))),
        { st with active := b })
  else if pathIs path "username" then do
    let s ← UserPatchEngine.extractStringValue value "userName"
    .ok (heap, { st with userName := s })
  else if pathIs path "displayname" then do
    let v ← UserPatchEngine.extractNullableStringValue value "displayName"
    .ok (heapSet heap st.payloadAddr
          (hSet (heapGet heap st.payloadAddr) "displayName"
            (HVal.prim (UserPatchEngine.nullableVal v))),
        { st with displayName := v })
  else if pathIs path "externalid" then do
    let v ← UserPatchEngine.extractNullableStringValue value "externalId"
    .ok (heap, { st with externalId := v })
  else
    match originalPath with
    | some p =>
      if p ≠ "" ∧ isExtensionPath p then .ok (heap, st)
      else if p ≠ "" ∧ isValuePath p then .ok (heap, st)
      else if config.verbosePatch ∧ p ≠ "" ∧ strHasChar p '.' then
        .ok (applyDotNotationH heap st.payloadAddr p value, st)
      else if p ≠ "" then
        .ok (heapSet heap st.payloadAddr
              (hSet (heapGet heap st.payloadAddr) p (HVal.prim value)), st)
      else .ok (heap, st)
    | none => .ok (heap, st)

/-- `applyRemove` at heap level (heap-relevant branches, source order
preserved). -/
def applyRemoveH (heap : Heap) (originalPath : Option String)
    (st : UserPatchStateH) (config : PatchConfig) :
    Except PatchError (Heap × UserPatchStateH) :=
  let path := originalPath.map lowerStr
  if pathIs path "active" then
    .ok (heapSet heap st.payloadAddr
          (hSet (heapGet heap st.payloadAddr) "active" (HVal.prim (.bool false))),
        { st with active := false })
  else
    match originalPath with
    | some p =>
      if p ≠ "" ∧ isExtensionPath p then .ok (heap, st)
      else if p ≠ "" ∧ isValuePath p then .ok (heap, st)
      else if config.verbosePatch ∧ p ≠ "" ∧ strHasChar p '.' then
        .ok (removeDotNotationH heap st.payloadAddr p, st)
      else if p ≠ "" then
        .ok (heapSet heap st.payloadAddr
              ((heapGet heap st.payloadAddr).filter
                (fun e => lowerStr e.1 ≠ lowerStr p)), st)
      else .error UserPatchEngine.noTargetError
    | none => .error UserPatchEngine.noTargetError

/-- The operation loop at heap level.  A thrown `PatchError` aborts the
loop, but the heap mutations already performed stay visible. -/
def applyOpsH (operations : List PatchOperation) (heap : Heap)
    (st : UserPatchStateH) (config : PatchConfig) :
    Except PatchError UserPatchStateH × Heap :=
  match operations with
  | [] => (.ok st, heap)
  | operation :: rest =>
    let op := lowerStr operation.op
    if ¬(op = "add" ∨ op = "replace" ∨ op = "remove") then
      (.error (UserPatchEngine.unsupportedOpError operation.op), heap)
    else
      match
        (if op = "add" ∨ op = "replace" then
          applyAddOrReplaceH heap operation.path operation.value st config
        else applyRemoveH heap operation.path st config) with
      | .error e => (.error e, heap)
      | .ok (heap', st') => applyOpsH rest heap' st' config

/-- `UserPatchEngine.apply` at heap level.  The payload is copied with a
top-level spread: the copy gets a FRESH address but holds the SAME field
list, so nested references stay shared with the caller's object.  On
success the engine strips the copy into a fresh result object; on a thrown
failure the heap is returned as already mutated. -/
def applyH (operations : List PatchOperation) (heap : Heap)
    (state : UserPatchStateH) (config : PatchConfig) :
    Except PatchError UserPatchStateH × Heap :=
  let copyAddr := heap.length
  let heap1 := heap ++ [heapGet heap state.payloadAddr]
  match applyOpsH operations heap1 { state with payloadAddr := copyAddr } config with
  | (.ok st', heap') =>
    let fresh := heap'.length
    (.ok { st' with payloadAddr := fresh },
     heap' ++ [(heapGet heap' st'.payloadAddr).filter
       (fun e => !UserPatchEngine.isReservedKey e.1)])
  | (.error e, heap') => (.error e, heap')

/-! ## Association-list lemma library for the JS object model -/

/-- The key list of an object. -/
def keysOf (p : JSObj) : List String := p.map (·.1)

/-- Real JS objects have unique keys. -/
def NoDupKeys (p : JSObj) : Prop := (keysOf p).Nodup

theorem jsGet_jsSet (p : JSObj) (k : String) (v : JSVal) (k' : String) :
    jsGet (jsSet p k v) k' = if k' = k then v else jsGet p k' := by
  induction p with
  | nil =>
    by_cases h : k' = k
    · subst h; simp [jsSet, jsGet]
    · simp [jsSet, jsGet, h, Ne.symm h]
  | cons e rest ih =>
    obtain ⟨ek, ev⟩ := e
    by_cases h1 : ek = k
    · subst h1
      by_cases h2 : ek = k'
      · subst h2; simp [jsSet, jsGet]
      · simp [jsSet, jsGet, h2, Ne.symm h2]
    · by_cases h2 : ek = k'
      · subst h2
        simp [jsSet, jsGet, h1, Ne.symm h1]
      · simp [jsSet, jsGet, h1, h2, ih]

theorem jsHasKey_jsSet (p : JSObj) (k : String) (v : JSVal) (k' : String) :
    jsHasKey (jsSet p k v) k' = (k' = k || jsHasKey p k') := by
  induction p with
  | nil =>
    by_cases h : k' = k
    · subst h; simp [jsSet, jsHasKey]
    · simp [jsSet, jsHasKey, h, Ne.symm h]
  | cons e rest ih =>
    obtain ⟨ek, ev⟩ := e
    by_cases h1 : ek = k
    · subst h1
      by_cases h2 : ek = k'
      · subst h2; simp [jsSet, jsHasKey]
      · simp [jsSet, jsHasKey, h2, Ne.symm h2]
    · by_cases h2 : ek = k'
      · subst h2; simp [jsSet, jsHasKey, h1]
      · simp [jsSet, jsHasKey, h1, h2, ih]

theorem jsSet_jsSet (p : JSObj) (k : String) (v w : JSVal) :
    jsSet (jsSet p k v) k w = jsSet p k w := by
  induction p with
  | nil => simp [jsSet]
  | cons e rest ih =>
    obtain ⟨ek, ev⟩ := e
    by_cases h : ek = k <;> simp [jsSet, h, ih]

theorem jsSet_self (p : JSObj) (k : String) (v : JSVal)
    (hk : jsHasKey p k = true) (hv : jsGet p k = v) : jsSet p k v = p := by
  induction p with
  | nil => simp [jsHasKey] at hk
  | cons e rest ih =>
    obtain ⟨ek, ev⟩ := e
    by_cases h : ek = k
    · subst h
      simp [jsGet] at hv
      simp [jsSet, hv]
    · simp [jsHasKey, h] at hk
      simp [jsGet, h] at hv
      simp [jsSet, h, ih hk hv]

theorem jsGet_eq_undef_of_not_mem (p : JSObj) (k : String)
    (h : k ∉ keysOf p) : jsGet p k = .undef := by
  induction p with
  | nil => rfl
  | cons e rest ih =>
    obtain ⟨ek, ev⟩ := e
    simp only [keysOf, List.map_cons, List.mem_cons, not_or] at h
    have hne : ek ≠ k := fun hh => h.1 hh.symm
    rw [show jsGet ((ek, ev) :: rest) k = jsGet rest k by simp [jsGet, hne]]
    exact ih h.2

theorem jsHasKey_iff_mem (p : JSObj) (k : String) :
    jsHasKey p k = true ↔ k ∈ keysOf p := by
  induction p with
  | nil => simp [jsHasKey, keysOf]
  | cons e rest ih =>
    obtain ⟨ek, ev⟩ := e
    simp only [jsHasKey, keysOf, List.map_cons, List.mem_cons, Bool.or_eq_true,
      decide_eq_true_eq, ih]
    constructor
    · rintro (h | h)
      · exact Or.inl h.symm
      · exact Or.inr h
    · rintro (h | h)
      · exact Or.inl h.symm
      · exact Or.inr h

theorem keysOf_jsSet (p : JSObj) (k : String) (v : JSVal) :
    keysOf (jsSet p k v) = if k ∈ keysOf p then keysOf p else keysOf p ++ [k] := by
  induction p with
  | nil => simp [jsSet, keysOf]
  | cons e rest ih =>
    obtain ⟨ek, ev⟩ := e
    by_cases h : ek = k
    · subst h
      simp [jsSet, keysOf]
    · have hne : k ≠ ek := fun hh => h hh.symm
      have hstep : keysOf (jsSet ((ek, ev) :: rest) k v) = ek :: keysOf (jsSet rest k v) := by
        simp [jsSet, h, keysOf]
      have hcons : keysOf ((ek, ev) :: rest) = ek :: keysOf rest := by simp [keysOf]
      by_cases h2 : k ∈ keysOf rest
      · rw [hstep, ih, if_pos h2, hcons, if_pos (by simp [h2])]
      · rw [hstep, ih, if_neg h2, hcons, if_neg (by simp [hne, h2]), List.cons_append]

theorem noDupKeys_jsSet (p : JSObj) (k : String) (v : JSVal)
    (h : NoDupKeys p) : NoDupKeys (jsSet p k v) := by
  unfold NoDupKeys at *
  rw [keysOf_jsSet]
  by_cases hm : k ∈ keysOf p
  · simpa [hm]
  · rw [if_neg hm]
    simp only [List.nodup_append, List.nodup_singleton, true_and, and_true]
    exact ⟨h, by simpa [List.disjoint_singleton] using hm⟩

/-- Extensionality for unique-keyed objects: same key order and same
pointwise reads force equality. -/
theorem jsObj_ext (p : JSObj) : ∀ (q : JSObj), NoDupKeys p → NoDupKeys q →
    keysOf p = keysOf q → (∀ k, jsGet p k = jsGet q k) → p = q := by
  induction p with
  | nil =>
    intro q _ _ hkeys _
    cases q with
    | nil => rfl
    | cons f qrest => simp [keysOf] at hkeys
  | cons e rest ih =>
    intro q hp hq hkeys hget
    cases q with
    | nil => simp [keysOf] at hkeys
    | cons f qrest =>
      obtain ⟨ek, ev⟩ := e
      obtain ⟨fk, fv⟩ := f
      simp only [keysOf, List.map_cons, List.cons.injEq] at hkeys
      obtain ⟨hk0, hkrest⟩ := hkeys
      subst hk0
      have hv : ev = fv := by simpa [jsGet] using hget ek
      subst hv
      simp only [NoDupKeys, keysOf, List.map_cons, List.nodup_cons] at hp hq
      refine congrArg _ (ih qrest hp.2 hq.2 hkrest ?_)
      intro k
      by_cases hk : k = ek
      · subst hk
        rw [jsGet_eq_undef_of_not_mem _ _ (by simpa [keysOf] using hp.1),
            jsGet_eq_undef_of_not_mem _ _ (by simpa [keysOf] using hq.1)]
      · have hne : ek ≠ k := fun hh => hk hh.symm
        have := hget k
        rw [show jsGet ((ek, ev) :: rest) k = jsGet rest k by simp [jsGet, hne],
            show jsGet ((ek, ev) :: qrest) k = jsGet qrest k by simp [jsGet, hne]] at this
        exact this

/-! ### Key-predicate filters (the shape of `stripReservedAttributes`) -/

theorem jsGet_filterKeys (p : JSObj) (q : String → Bool) (k : String) :
    jsGet (p.filter (fun e => q e.1)) k = if q k then jsGet p k else .undef := by
  induction p with
  | nil => by_cases h : q k <;> simp [jsGet, h]
  | cons e rest ih =>
    obtain ⟨ek, ev⟩ := e
    by_cases hq : q ek
    · by_cases hk : ek = k
      · subst hk
        simp [List.filter, hq, jsGet, ih]
      · simp [List.filter, hq, jsGet, hk, ih]
    · by_cases hk : ek = k
      · subst hk
        simp [List.filter, hq, jsGet, ih]
      · simp [List.filter, hq, jsGet, hk, ih]

theorem keysOf_filterKeys (p : JSObj) (q : String → Bool) :
    keysOf (p.filter (fun e => q e.1)) = (keysOf p).filter q := by
  induction p with
  | nil => simp [keysOf]
  | cons e rest ih =>
    obtain ⟨ek, ev⟩ := e
    by_cases hq : q ek <;> simp [List.filter, hq, keysOf, ih] <;>
      simpa [keysOf] using ih

theorem noDupKeys_filterKeys (p : JSObj) (q : String → Bool)
    (h : NoDupKeys p) : NoDupKeys (p.filter (fun e => q e.1)) := by
  unfold NoDupKeys
  rw [keysOf_filterKeys]
  exact h.filter q

theorem filterKeys_filterKeys (p : JSObj) (q : String → Bool) :
    (p.filter (fun e => q e.1)).filter (fun e => q e.1) = p.filter (fun e => q e.1) := by
  rw [List.filter_filter]
  simp

theorem filterKeys_jsSet_neg (p : JSObj) (q : String → Bool) (k : String) (v : JSVal)
    (hk : q k = false) :
    (jsSet p k v).filter (fun e => q e.1) = p.filter (fun e => q e.1) := by
  induction p with
  | nil => simp [jsSet, List.filter, hk]
  | cons e rest ih =>
    obtain ⟨ek, ev⟩ := e
    by_cases h : ek = k
    · subst h
      simp [jsSet, List.filter, hk]
    · by_cases hq : q ek <;> simp [jsSet, List.filter, h, hq, ih]

theorem jsHasKey_filterKeys (p : JSObj) (q : String → Bool) (k : String) :
    jsHasKey (p.filter (fun e => q e.1)) k = (q k && jsHasKey p k) := by
  induction p with
  | nil => simp [jsHasKey]
  | cons e rest ih =>
    obtain ⟨ek, ev⟩ := e
    by_cases hq : q ek
    · by_cases hk : ek = k
      · subst hk
        simp [List.filter, hq, jsHasKey]
      · simp [List.filter, hq, jsHasKey, hk, ih]
    · by_cases hk : ek = k
      · subst hk
        simp [List.filter, hq, jsHasKey, ih]
      · simp [List.filter, hq, jsHasKey, hk, ih]

theorem find?_filter_of_find? (p : JSObj) (q : String × JSVal → Bool)
    (r : String → Bool) (e : String × JSVal)
    (hf : p.find? q = some e) (hr : r e.1 = true) :
    (p.filter (fun x => r x.1)).find? q = some e := by
  induction p with
  | nil => simp [List.find?] at hf
  | cons a rest ih =>
    by_cases hq : q a
    · rw [List.find?_cons_of_pos _ hq] at hf
      injection hf with hf
      subst hf
      simp [List.filter, hr, List.find?_cons_of_pos _ hq]
    · rw [List.find?_cons_of_neg _ hq] at hf
      by_cases hra : r a.1
      · simp [List.filter, hra, List.find?_cons_of_neg _ hq, ih hf]
      · simp [List.filter, hra, ih hf]

theorem find?_filter_of_none (p : JSObj) (q : String × JSVal → Bool)
    (r : String → Bool) (hf : p.find? q = none) :
    (p.filter (fun x => r x.1)).find? q = none := by
  induction p with
  | nil => simp [List.find?]
  | cons a rest ih =>
    by_cases hq : q a
    · rw [List.find?_cons_of_pos _ hq] at hf
      exact absurd hf (by simp)
    · rw [List.find?_cons_of_neg _ hq] at hf
      by_cases hra : r a.1
      · simp [List.filter, hra, List.find?_cons_of_neg _ hq, ih hf]
      · simp [List.filter, hra, ih hf]

/-! ### Folded merges (`resolveNoPathValue`) -/

/-- The last value an update list writes to a key, if any. -/
def lastVal (u : JSObj) (k : String) : Option JSVal :=
  match u with
  | [] => none
  | (k0, v0) :: rest =>
    match lastVal rest k with
    | some v => some v
    | none => if k0 = k then some v0 else none

theorem resolveNoPathValue_cons (p : JSObj) (k0 : String) (v0 : JSVal) (rest : JSObj) :
    resolveNoPathValue p ((k0, v0) :: rest) = resolveNoPathValue (jsSet p k0 v0) rest := rfl

theorem jsGet_resolveNoPathValue (u : JSObj) : ∀ (p : JSObj) (k : String),
    jsGet (resolveNoPathValue p u) k = (lastVal u k).getD (jsGet p k) := by
  induction u with
  | nil => intro p k; simp [resolveNoPathValue, lastVal]
  | cons e rest ih =>
    intro p k
    obtain ⟨k0, v0⟩ := e
    rw [resolveNoPathValue_cons, ih]
    cases hrest : lastVal rest k with
    | some v => simp [lastVal, hrest]
    | none =>
      by_cases hk : k0 = k
      · subst hk
        simp [lastVal, hrest, jsGet_jsSet]
      · have hk2 : ¬k = k0 := fun h => hk h.symm
        simp [lastVal, hrest, hk, jsGet_jsSet, hk2]

theorem mem_keysOf_resolveNoPathValue_mono (u : JSObj) : ∀ (p : JSObj) (k : String),
    k ∈ keysOf p → k ∈ keysOf (resolveNoPathValue p u) := by
  induction u with
  | nil => intro p k h; simpa [resolveNoPathValue] using h
  | cons a rest ih =>
    intro p k h
    obtain ⟨k0, v0⟩ := a
    rw [resolveNoPathValue_cons]
    refine ih _ _ ?_
    rw [keysOf_jsSet]
    by_cases hm : k0 ∈ keysOf p <;> simp [hm, h]

theorem mem_keysOf_resolveNoPathValue (u : JSObj) : ∀ (p : JSObj) (e : String × JSVal),
    e ∈ u → e.1 ∈ keysOf (resolveNoPathValue p u) := by
  induction u with
  | nil => intro p e h; simp at h
  | cons a rest ih =>
    intro p e h
    obtain ⟨k0, v0⟩ := a
    rw [resolveNoPathValue_cons]
    rcases List.mem_cons.mp h with h | h
    · subst h
      refine mem_keysOf_resolveNoPathValue_mono rest _ _ ?_
      rw [keysOf_jsSet]
      by_cases hm : k0 ∈ keysOf p <;> simp [hm]
    · exact ih _ e h

theorem noDupKeys_resolveNoPathValue (u : JSObj) : ∀ (p : JSObj),
    NoDupKeys p → NoDupKeys (resolveNoPathValue p u) := by
  induction u with
  | nil => intro p h; simpa [resolveNoPathValue] using h
  | cons a rest ih =>
    intro p h
    obtain ⟨k0, v0⟩ := a
    rw [resolveNoPathValue_cons]
    exact ih _ (noDupKeys_jsSet _ _ _ h)

theorem keysOf_resolveNoPathValue_of_mem (u : JSObj) : ∀ (p : JSObj),
    (∀ e ∈ u, e.1 ∈ keysOf p) → keysOf (resolveNoPathValue p u) = keysOf p := by
  induction u with
  | nil => intro p _; simp [resolveNoPathValue]
  | cons a rest ih =>
    intro p h
    obtain ⟨k0, v0⟩ := a
    rw [resolveNoPathValue_cons]
    have hk0 : k0 ∈ keysOf p := h (k0, v0) (List.mem_cons_self _ _)
    have hkeys : keysOf (jsSet p k0 v0) = keysOf p := by
      rw [keysOf_jsSet, if_pos hk0]
    rw [ih _ (fun e he => by rw [hkeys]; exact h e (List.mem_cons_of_mem _ he)), hkeys]

/-- `resolveNoPathValue` appends, beyond the original keys, only keys on
which the given predicate fails — provided the predicate-satisfying update
keys are already present. -/
theorem keysOf_resolveNoPathValue_decomp (q : String → Bool) (u : JSObj) :
    ∀ (p : JSObj), (∀ e ∈ u, q e.1 = true → e.1 ∈ keysOf p) →
    ∃ E, keysOf (resolveNoPathValue p u) = keysOf p ++ E ∧ ∀ k ∈ E, q k = false := by
  induction u with
  | nil =>
    intro p _
    exact ⟨[], by simp [resolveNoPathValue], by simp⟩
  | cons a rest ih =>
    intro p h
    obtain ⟨k0, v0⟩ := a
    rw [resolveNoPathValue_cons]
    by_cases hm : k0 ∈ keysOf p
    · have hkeys : keysOf (jsSet p k0 v0) = keysOf p := by
        rw [keysOf_jsSet, if_pos hm]
      obtain ⟨E, hE, hEq⟩ := ih (jsSet p k0 v0) (fun e he hq => by
        rw [hkeys]; exact h e (List.mem_cons_of_mem _ he) hq)
      exact ⟨E, by rw [hE, hkeys], hEq⟩
    · have hq0 : q k0 = false := by
        by_contra hq
        exact hm (h (k0, v0) (List.mem_cons_self _ _) (by simpa using hq))
      have hkeys : keysOf (jsSet p k0 v0) = keysOf p ++ [k0] := by
        rw [keysOf_jsSet, if_neg hm]
      obtain ⟨E, hE, hEq⟩ := ih (jsSet p k0 v0) (fun e he hq => by
        rw [hkeys]
        exact List.mem_append_left _ (h e (List.mem_cons_of_mem _ he) hq))
      refine ⟨k0 :: E, ?_, ?_⟩
      · rw [hE, hkeys, List.append_assoc]
        rfl
      · intro k hk
        rcases List.mem_cons.mp hk with hk | hk
        · subst hk; exact hq0
        · exact hEq k hk

/-- Merging the same update object twice is the same as merging it once. -/
theorem resolveNoPathValue_idem (p u : JSObj) (hp : NoDupKeys p) :
    resolveNoPathValue (resolveNoPathValue p u) u = resolveNoPathValue p u := by
  refine jsObj_ext _ _ (noDupKeys_resolveNoPathValue _ _ (noDupKeys_resolveNoPathValue _ _ hp))
    (noDupKeys_resolveNoPathValue _ _ hp) ?_ ?_
  · exact keysOf_resolveNoPathValue_of_mem _ _
      (fun e he => mem_keysOf_resolveNoPathValue _ _ e he)
  · intro k
    rw [jsGet_resolveNoPathValue, jsGet_resolveNoPathValue]
    cases h : lastVal u k with
    | some v => simp [h, jsGet_resolveNoPathValue, Option.getD]
    | none => simp [h]

/-! ### `stripReservedAttributes` instances of the filter lemmas -/

theorem strip_eq_filterKeys (p : JSObj) :
    UserPatchEngine.stripReservedAttributes p =
      p.filter (fun e => !UserPatchEngine.isReservedKey e.1) := rfl

theorem jsGet_strip (p : JSObj) (k : String) :
    jsGet (UserPatchEngine.stripReservedAttributes p) k =
      if UserPatchEngine.isReservedKey k then .undef else jsGet p k := by
  have h := jsGet_filterKeys p (fun s => !UserPatchEngine.isReservedKey s) k
  rw [strip_eq_filterKeys, h]
  by_cases hres : UserPatchEngine.isReservedKey k <;> simp [hres]

theorem jsHasKey_strip (p : JSObj) (k : String) :
    jsHasKey (UserPatchEngine.stripReservedAttributes p) k =
      (!UserPatchEngine.isReservedKey k && jsHasKey p k) := by
  have h := jsHasKey_filterKeys p (fun s => !UserPatchEngine.isReservedKey s) k
  rw [strip_eq_filterKeys, h]

theorem strip_strip (p : JSObj) :
    UserPatchEngine.stripReservedAttributes (UserPatchEngine.stripReservedAttributes p) =
      UserPatchEngine.stripReservedAttributes p := by
  have h := filterKeys_filterKeys p (fun s => !UserPatchEngine.isReservedKey s)
  rw [strip_eq_filterKeys, strip_eq_filterKeys, h]

theorem strip_jsSet_reserved (p : JSObj) (k : String) (v : JSVal)
    (hk : UserPatchEngine.isReservedKey k = true) :
    UserPatchEngine.stripReservedAttributes (jsSet p k v) =
      UserPatchEngine.stripReservedAttributes p := by
  have h := filterKeys_jsSet_neg p (fun s => !UserPatchEngine.isReservedKey s) k v
    (by simp [hk])
  rw [strip_eq_filterKeys, strip_eq_filterKeys, h]

theorem noDupKeys_strip (p : JSObj) (h : NoDupKeys p) :
    NoDupKeys (UserPatchEngine.stripReservedAttributes p) := by
  have h2 := noDupKeys_filterKeys p (fun s => !UserPatchEngine.isReservedKey s) h
  rw [strip_eq_filterKeys]
  exact h2

theorem keysOf_strip (p : JSObj) :
    keysOf (UserPatchEngine.stripReservedAttributes p) =
      (keysOf p).filter (fun s => !UserPatchEngine.isReservedKey s) := by
  have h := keysOf_filterKeys p (fun s => !UserPatchEngine.isReservedKey s)
  rw [strip_eq_filterKeys, h]

/-- The master idempotence lemma for payload-writing user-engine branches:
re-merging the same update object into the already merged-and-stripped
payload and stripping again changes nothing. -/
theorem strip_resolveNoPathValue_idem (p u : JSObj) (hp : NoDupKeys p) :
    UserPatchEngine.stripReservedAttributes
      (resolveNoPathValue
        (UserPatchEngine.stripReservedAttributes (resolveNoPathValue p u)) u) =
    UserPatchEngine.stripReservedAttributes (resolveNoPathValue p u) := by
  have hP1nodup : NoDupKeys (UserPatchEngine.stripReservedAttributes (resolveNoPathValue p u)) :=
    noDupKeys_strip _ (noDupKeys_resolveNoPathValue _ _ hp)
  refine jsObj_ext _ _
    (noDupKeys_strip _ (noDupKeys_resolveNoPathValue _ _ hP1nodup)) hP1nodup ?_ ?_
  · -- key lists agree
    obtain ⟨E, hE, hEq⟩ := keysOf_resolveNoPathValue_decomp
      (fun s => !UserPatchEngine.isReservedKey s) u
      (UserPatchEngine.stripReservedAttributes (resolveNoPathValue p u))
      (fun e he hqe => by
        rw [keysOf_strip, List.mem_filter]
        exact ⟨mem_keysOf_resolveNoPathValue _ _ e he, hqe⟩)
    rw [keysOf_strip, hE, List.filter_append]
    have h1 : (keysOf (UserPatchEngine.stripReservedAttributes (resolveNoPathValue p u))).filter
          (fun s => !UserPatchEngine.isReservedKey s) =
        keysOf (UserPatchEngine.stripReservedAttributes (resolveNoPathValue p u)) := by
      rw [keysOf_strip, List.filter_filter]
      simp
    have h2 : E.filter (fun s => !UserPatchEngine.isReservedKey s) = [] := by
      rw [List.filter_eq_nil_iff]
      intro k hk
      simp [hEq k hk]
    rw [h1, h2, List.append_nil]
  · -- pointwise reads agree
    intro k
    by_cases hres : UserPatchEngine.isReservedKey k
    · rw [jsGet_strip, if_pos hres, jsGet_strip, if_pos hres]
    · rw [jsGet_strip, if_neg hres, jsGet_strip, if_neg hres,
          jsGet_resolveNoPathValue, jsGet_resolveNoPathValue]
      cases h : lastVal u k with
      | some v => simp [h]
      | none =>
        simp only [h, Option.getD_none]
        rw [jsGet_strip, if_neg hres, jsGet_resolveNoPathValue, h, Option.getD_none]

/-! ## Claim theorems -/

/-- C2: for every Logical(and/or) AST node where exactly one of the two
sides is unpushable against the column map, the planner returns Unpushable
for the whole node — the filter result has an empty dbWhere, fetchAll=true,
and an in-memory filter — and never a partial predicate containing only the
pushable side. -/
theorem c2_logical_all_or_nothing (op : String) (l r : FilterNode) (cmap : ColumnMap)
    (h : (tryPushToDb l cmap = none ∧ (tryPushToDb r cmap).isSome = true) ∨
         ((tryPushToDb l cmap).isSome = true ∧ tryPushToDb r cmap = none)) :
    (buildFilterResult (.logical op l r) cmap).dbWhere = [] ∧
    (buildFilterResult (.logical op l r) cmap).fetchAll = true ∧
    (buildFilterResult (.logical op l r) cmap).inMemoryFilter.isSome = true := by
  have hnone : tryPushToDb (.logical op l r) cmap = none := by
    unfold tryPushToDb
    rcases h with ⟨h1, _⟩ | ⟨_, h2⟩
    · by_cases ha : op = "and"
      · simp [ha, h1]
      · by_cases ho : op = "or" <;> simp [ha, ho, h1]
    · by_cases ha : op = "and"
      · cases hl : tryPushToDb l cmap <;> simp [ha, h2]
      · by_cases ho : op = "or"
        · cases hl : tryPushToDb l cmap <;> simp [ha, ho, h2]
        · simp [ha, ho]
  simp [buildFilterResult, hnone]

/-- Witness for C2 at `userName eq "john" and emails.value eq "x"` against
the user column map. -/
theorem c2_logical_all_or_nothing_witness :
    ((tryPushToDb (.compare "userName" "eq" (.str "john")) USER_DB_COLUMNS).isSome = true ∧
     tryPushToDb (.compare "emails.value" "eq" (.str "x")) USER_DB_COLUMNS = none) ∧
    (buildFilterResult
        (.logical "and" (.compare "userName" "eq" (.str "john"))
          (.compare "emails.value" "eq" (.str "x"))) USER_DB_COLUMNS).dbWhere = [] ∧
    (buildFilterResult
        (.logical "and" (.compare "userName" "eq" (.str "john"))
          (.compare "emails.value" "eq" (.str "x"))) USER_DB_COLUMNS).fetchAll = true ∧
    (buildFilterResult
        (.logical "and" (.compare "userName" "eq" (.str "john"))
          (.compare "emails.value" "eq" (.str "x"))) USER_DB_COLUMNS).inMemoryFilter.isSome
      = true := by
  refine ⟨⟨rfl, rfl⟩, ?_⟩
  exact c2_logical_all_or_nothing "and" _ _ USER_DB_COLUMNS (Or.inr ⟨rfl, rfl⟩)

/-- C6: a members-targeting add operation supplying more than one member
with `allowMultiMemberAdd = false` makes `GroupPatchEngine.apply` throw the
`invalidValue` failure, so no state is produced and no subset of the batch
is added. -/
theorem c6_multi_member_add_rejected (s : GroupPatchState) (cfg : GroupMemberPatchConfig)
    (path : Option String) (v1 v2 : JSVal) (vs : List JSVal)
    (hcfg : cfg.allowMultiMemberAdd = false)
    (hpath : pathTruthy path = false ∨ pathIs (path.map lowerStr) "members" = true) :
    GroupPatchEngine.apply [⟨"add", path, .arr (v1 :: v2 :: vs)⟩] s cfg =
      .error GroupPatchEngine.multiAddError ∧
    GroupPatchEngine.multiAddError.status = 400 ∧
    GroupPatchEngine.multiAddError.scimType = some "invalidValue" := by
  refine ⟨?_, rfl, rfl⟩
  have hadd : GroupPatchEngine.handleAdd ⟨"add", path, .arr (v1 :: v2 :: vs)⟩ s.members
      cfg.allowMultiMemberAdd = .error GroupPatchEngine.multiAddError := by
    unfold GroupPatchEngine.handleAdd
    have hguard : ¬(pathTruthy path = true ∧
        ¬pathIs (path.map lowerStr) "members" = true) := by
      rcases hpath with h | h
      · intro hc; rw [hc.1] at h; exact absurd h (by simp)
      · intro hc; exact hc.2 h
    rw [if_neg hguard]
    have htruthy : JSVal.jsTruthy (.arr (v1 :: v2 :: vs)) = true := rfl
    rw [if_neg (by simp [htruthy])]
    have hlen : ¬cfg.allowMultiMemberAdd = true ∧ (v1 :: v2 :: vs).length > 1 := by
      constructor
      · simp [hcfg]
      · simp
    rw [if_pos hlen]
  unfold GroupPatchEngine.apply GroupPatchEngine.applyOps
  simp [show lowerStr "add" = "add" from rfl, hadd, Bind.bind, Except.bind]

/-- Witness for C6 at the spec's Scenario 4 input. -/
theorem c6_multi_member_add_rejected_witness :
    GroupPatchEngine.apply
        [⟨"add", some "members",
          .arr [.obj [("value", .str "u1")], .obj [("value", .str "u2")]]⟩]
        ⟨"G", none, [], []⟩ ⟨false, true, true⟩ =
      .error GroupPatchEngine.multiAddError :=
  (c6_multi_member_add_rejected ⟨"G", none, [], []⟩ ⟨false, true, true⟩
    (some "members") (.obj [("value", .str "u1")]) (.obj [("value", .str "u2")]) []
    rfl (Or.inr rfl)).1

/-- A successful `UserPatchEngine.apply` returns the stripped final payload. -/
theorem userApply_ok_payload (ops : List PatchOperation) (s : UserPatchState)
    (cfg : PatchConfig) (res : UserPatchResult)
    (hok : UserPatchEngine.apply ops s cfg = .ok res) :
    ∃ final, UserPatchEngine.applyOps ops s cfg = .ok final ∧
      res.payload = UserPatchEngine.stripReservedAttributes final.rawPayload := by
  unfold UserPatchEngine.apply at hok
  cases h : UserPatchEngine.applyOps ops s cfg with
  | error e => rw [h] at hok; exact absurd hok (by simp [Bind.bind, Except.bind])
  | ok final =>
    rw [h] at hok
    simp only [Bind.bind, Except.bind] at hok
    injection hok with hok
    exact ⟨final, rfl, by rw [← hok]⟩

/-- C8: whatever the operations wrote, a successful `UserPatchEngine.apply`
returns a payload containing no key that case-insensitively equals `id`,
`userName`, `externalId` or `active` — the server-managed keys are stripped
unconditionally after all operations fold. -/
theorem c8_reserved_keys_stripped (ops : List PatchOperation) (s : UserPatchState)
    (cfg : PatchConfig) (res : UserPatchResult) (k : String)
    (hok : UserPatchEngine.apply ops s cfg = .ok res)
    (hk : jsHasKey res.payload k = true) :
    lowerStr k ≠ "id" ∧ lowerStr k ≠ "username" ∧
    lowerStr k ≠ "externalid" ∧ lowerStr k ≠ "active" := by
  obtain ⟨final, _, hpayload⟩ := userApply_ok_payload ops s cfg res hok
  rw [hpayload, jsHasKey_strip] at hk
  have hres : UserPatchEngine.isReservedKey k = false := by
    cases h : UserPatchEngine.isReservedKey k
    · rfl
    · rw [h] at hk; exact absurd hk (by simp)
  unfold UserPatchEngine.isReservedKey at hres
  have hlow : UserPatchEngine.RESERVED_ATTRIBUTES.contains (lowerStr k) = false := by
    cases h : UserPatchEngine.RESERVED_ATTRIBUTES.contains (lowerStr k)
    · rfl
    · rw [h] at hres; simp at hres
  refine ⟨?_, ?_, ?_, ?_⟩ <;> intro hkk <;> rw [hkk] at hlow <;> exact absurd hlow (by decide)

/-- Witness for C8: an operation batch that writes `id` and `title` into
the payload (and `UserName`/`ACTIVE` into the first-class fields) returns a
payload holding only `title`. -/
theorem c8_reserved_keys_stripped_witness :
    UserPatchEngine.apply
        [⟨"add", some "id", .str "bad"⟩, ⟨"add", some "UserName", .str "hack"⟩,
         ⟨"add", some "ACTIVE", .bool true⟩, ⟨"add", some "title", .str "OK"⟩]
        ⟨"u", none, none, true, []⟩ ⟨false⟩ =
      .ok ⟨[("title", .str "OK")], ⟨"hack", none, none, true⟩⟩ ∧
    jsHasKey [("title", .str "OK")] "title" = true ∧
    (lowerStr "title" ≠ "id" ∧ lowerStr "title" ≠ "username" ∧
     lowerStr "title" ≠ "externalid" ∧ lowerStr "title" ≠ "active") := by
  have h : UserPatchEngine.apply
      [⟨"add", some "id", .str "bad"⟩, ⟨"add", some "UserName", .str "hack"⟩,
       ⟨"add", some "ACTIVE", .bool true⟩, ⟨"add", some "title", .str "OK"⟩]
      ⟨"u", none, none, true, []⟩ ⟨false⟩ =
      .ok ⟨[("title", .str "OK")], ⟨"hack", none, none, true⟩⟩ := rfl
  exact ⟨h, rfl, c8_reserved_keys_stripped _ _ _ _ "title" h rfl⟩

/-- Frame of the add-only loop: only the member list changes. -/
theorem groupApplyOps_add_frame (ops : List PatchOperation) :
    ∀ (st : GroupPatchState) (cfg : GroupMemberPatchConfig) (final : GroupPatchState),
    (∀ o ∈ ops, lowerStr o.op = "add") →
    GroupPatchEngine.applyOps ops st cfg = .ok final →
    final.displayName = st.displayName ∧ final.externalId = st.externalId ∧
      final.rawPayload = st.rawPayload := by
  induction ops with
  | nil =>
    intro st cfg final _ h
    unfold GroupPatchEngine.applyOps at h
    injection h with h
    subst h
    exact ⟨rfl, rfl, rfl⟩
  | cons o rest ih =>
    intro st cfg final hops h
    have hop : lowerStr o.op = "add" := hops o (List.mem_cons_self _ _)
    unfold GroupPatchEngine.applyOps at h
    rw [hop] at h
    simp only [Bind.bind, Except.bind] at h
    norm_num at h
    cases hadd : GroupPatchEngine.handleAdd o st.members cfg.allowMultiMemberAdd with
    | error e => rw [hadd] at h; exact absurd h (by simp)
    | ok ms =>
      rw [hadd] at h
      simp only [pure, Except.pure] at h
      have := ih _ cfg final (fun x hx => hops x (List.mem_cons_of_mem _ hx)) h
      simpa using this

/-- C10 (implicit frame property): an accepted batch of add operations can
change only the member list — displayName, externalId and the raw payload
of the result are exactly those of the input state. -/
theorem c10_group_add_frame (ops : List PatchOperation) (s : GroupPatchState)
    (cfg : GroupMemberPatchConfig) (res : GroupPatchResult)
    (hops : ∀ o ∈ ops, lowerStr o.op = "add")
    (hok : GroupPatchEngine.apply ops s cfg = .ok res) :
    res.displayName = s.displayName ∧ res.externalId = s.externalId ∧
      res.payload = s.rawPayload := by
  unfold GroupPatchEngine.apply at hok
  cases h : GroupPatchEngine.applyOps ops s cfg with
  | error e => rw [h] at hok; exact absurd hok (by simp [Bind.bind, Except.bind])
  | ok final =>
    rw [h] at hok
    simp only [Bind.bind, Except.bind] at hok
    injection hok with hok
    obtain ⟨h1, h2, h3⟩ := groupApplyOps_add_frame ops s cfg final hops h
    rw [← hok]
    exact ⟨h1, h2, h3⟩

/-- Witness for C10: a concrete accepted add operation. -/
theorem c10_group_add_frame_witness :
    GroupPatchEngine.apply [⟨"add", some "members", .obj [("value", .str "u1")]⟩]
        ⟨"G", some "ext", [], [("k", .str "v")]⟩ ⟨true, true, true⟩ =
      .ok ⟨"G", some "ext", [("k", .str "v")], [⟨.str "u1", .undef, .undef⟩]⟩ ∧
    ("G" = "G" ∧ some "ext" = some "ext" ∧
      [("k", JSVal.str "v")] = [("k", JSVal.str "v")]) := by
  have h : GroupPatchEngine.apply [⟨"add", some "members", .obj [("value", .str "u1")]⟩]
      ⟨"G", some "ext", [], [("k", .str "v")]⟩ ⟨true, true, true⟩ =
      .ok ⟨"G", some "ext", [("k", .str "v")], [⟨.str "u1", .undef, .undef⟩]⟩ := rfl
  refine ⟨h, c10_group_add_frame _ _ _ _ ?_ h⟩
  intro o ho
  simp at ho
  rw [ho]
  rfl

/-- The boolean coercion domain the spec names for `active`: `true`/`false`
booleans, the case-insensitive strings "true"/"false", and a nested
`{active: <bool-like>}` object whose inner value is one of the scalar
shapes.  Everything else is rejected. -/
def boolLike : JSVal → Option Bool
  | .bool b => some b
  | .str s =>
    if lowerStr s = "true" then some true
    else if lowerStr s = "false" then some false
    else none
  | .obj o =>
    if jsHasKey o "active" then
      match jsGet o "active" with
      | .bool b => some b
      | .str s =>
        if lowerStr s = "true" then some true
        else if lowerStr s = "false" then some false
        else none
      | _ => none
    else none
  | _ => none

/-- `extractBooleanValue` accepts exactly the spec's coercion domain. -/
theorem extractBooleanValue_eq_boolLike (v : JSVal) :
    UserPatchEngine.extractBooleanValue v =
      match boolLike v with
      | some b => .ok b
      | none => .error (UserPatchEngine.boolValueError v) := by
  cases v with
  | str s =>
    by_cases h1 : lowerStr s = "true"
    · simp [UserPatchEngine.extractBooleanValue, boolLike, h1]
    · by_cases h2 : lowerStr s = "false" <;>
        simp [UserPatchEngine.extractBooleanValue, boolLike, h1, h2]
  | obj o =>
    by_cases hk : jsHasKey o "active"
    · cases hv : jsGet o "active" with
      | str s =>
        by_cases h1 : lowerStr s = "true"
        · simp [UserPatchEngine.extractBooleanValue, boolLike, hk, hv, h1]
        · by_cases h2 : lowerStr s = "false" <;>
            simp [UserPatchEngine.extractBooleanValue, boolLike, hk, hv, h1, h2]
      | _ => simp [UserPatchEngine.extractBooleanValue, boolLike, hk, hv]
    · simp [UserPatchEngine.extractBooleanValue, boolLike,
        Bool.of_not_eq_true hk]
  | _ => rfl

/-- C7: every replace or add on `active` (any letter case of the path)
coerces booleans, the case-insensitive strings "true"/"false" and the
nested `{active: <bool-like>}` shape into the `active` field, and fails
with the `invalidValue` error on any other value. -/
theorem c7_active_boolean_coercion (op0 : String) (p : String) (v : JSVal)
    (s : UserPatchState) (cfg : PatchConfig)
    (hop : lowerStr op0 = "add" ∨ lowerStr op0 = "replace")
    (hp : lowerStr p = "active") :
    (∀ b, boolLike v = some b →
       UserPatchEngine.apply [⟨op0, some p, v⟩] s cfg =
         .ok ⟨UserPatchEngine.stripReservedAttributes
                (jsSet s.rawPayload "active" (.bool b)),
              ⟨s.userName, s.displayName, s.externalId, b⟩⟩) ∧
    (boolLike v = none →
       UserPatchEngine.apply [⟨op0, some p, v⟩] s cfg =
         .error (UserPatchEngine.boolValueError v) ∧
       (UserPatchEngine.boolValueError v).status = 400 ∧
       (UserPatchEngine.boolValueError v).scimType = some "invalidValue") := by
  have hstep : ∀ (st : UserPatchState),
      UserPatchEngine.applyAddOrReplace (lowerStr op0) (some p) v st cfg =
        match boolLike v with
        | some b =>
          .ok ⟨st.userName, st.displayName, st.externalId, b,
               jsSet st.rawPayload "active" (.bool b)⟩
        | none => .error (UserPatchEngine.boolValueError v) := by
    intro st
    unfold UserPatchEngine.applyAddOrReplace
    rw [if_pos (by simp [pathIs, hp]), extractBooleanValue_eq_boolLike]
    cases boolLike v <;> simp [Bind.bind, Except.bind]
  have hmain : UserPatchEngine.apply [⟨op0, some p, v⟩] s cfg =
      match boolLike v with
      | some b => .ok ⟨UserPatchEngine.stripReservedAttributes
            (jsSet s.rawPayload "active" (.bool b)),
          ⟨s.userName, s.displayName, s.externalId, b⟩⟩
      | none => .error (UserPatchEngine.boolValueError v) := by
    unfold UserPatchEngine.apply UserPatchEngine.applyOps
    have hsup : ¬¬(lowerStr op0 = "add" ∨ lowerStr op0 = "replace" ∨
        lowerStr op0 = "remove") := by
      rcases hop with h | h <;> simp [h]
    rw [if_neg hsup, if_pos (by rcases hop with h | h <;> simp [h]), hstep s]
    cases boolLike v <;> simp [Bind.bind, Except.bind, UserPatchEngine.applyOps]
  constructor
  · intro b hb
    rw [hmain, hb]
  · intro hb
    rw [hmain, hb]
    exact ⟨rfl, rfl, rfl⟩

/-- Witness for C7 at the spec's Scenario 5 (`value = "False"`) and at a
rejected value. -/
theorem c7_active_boolean_coercion_witness :
    UserPatchEngine.apply [⟨"replace", some "active", .str "False"⟩]
        ⟨"jdoe", some "John", none, true, [("displayName", .str "John")]⟩ ⟨false⟩ =
      .ok ⟨[("displayName", .str "John")], ⟨"jdoe", some "John", none, false⟩⟩ ∧
    UserPatchEngine.apply [⟨"replace", some "Active", .num 42⟩]
        ⟨"jdoe", some "John", none, true, []⟩ ⟨false⟩ =
      .error (UserPatchEngine.boolValueError (.num 42)) := by
  constructor
  · exact (c7_active_boolean_coercion "replace" "active" (.str "False")
      ⟨"jdoe", some "John", none, true, [("displayName", .str "John")]⟩ ⟨false⟩
      (Or.inr rfl) rfl).1 false rfl
  · exact ((c7_active_boolean_coercion "replace" "Active" (.num 42)
      ⟨"jdoe", some "John", none, true, []⟩ ⟨false⟩
      (Or.inr rfl) rfl).2 rfl).1

/-- C5 counterexample: a remove operation with the unknown path `foo` but a
non-empty array value does NOT fail with InvalidPath — `handleRemove`
consults the value array before the path and removes the listed member. -/
theorem c5_group_unknown_path_cex :
    GroupPatchEngine.apply
        [⟨"remove", some "foo", .arr [.obj [("value", .str "u1")]]⟩]
        ⟨"G", none, [⟨.str "u1", .undef, .undef⟩, ⟨.str "u2", .undef, .undef⟩], []⟩
        ⟨true, true, true⟩ =
      .ok ⟨"G", none, [], [⟨.str "u2", .undef, .undef⟩]⟩ := rfl

/-- C5 (amended): an add or replace with a present path naming a target
other than members/displayName/externalId fails with InvalidPath regardless
of value; a remove with such a path (not a members[value eq ...] filter)
fails with InvalidPath whenever its value is not a non-empty array. -/
theorem c5_group_unknown_path_invalid (o : PatchOperation) (s : GroupPatchState)
    (cfg : GroupMemberPatchConfig) (p : String)
    (hpath : o.path = some p) (hne : p ≠ "")
    (h1 : lowerStr p ≠ "members") (h2 : lowerStr p ≠ "displayname")
    (h3 : lowerStr p ≠ "externalid")
    (h4 : GroupPatchEngine.memberFilterCapture (lowerStr p) = none) :
    ((lowerStr o.op = "add" ∨ lowerStr o.op = "replace") →
      ∃ e, GroupPatchEngine.apply [o] s cfg = .error e ∧
        e.status = 400 ∧ e.scimType = some "invalidPath") ∧
    (lowerStr o.op = "remove" →
      (match o.value with | .arr (_ :: _) => False | _ => True) →
      ∃ e, GroupPatchEngine.apply [o] s cfg = .error e ∧
        e.status = 400 ∧ e.scimType = some "invalidPath") := by
  constructor
  · rintro (hop | hop)
    · -- add
      have hadd : GroupPatchEngine.handleAdd o s.members cfg.allowMultiMemberAdd =
          .error ⟨400, "Add operation path '" ++ o.path.getD "" ++
                       "' is not supported.", some "invalidPath"⟩ := by
        unfold GroupPatchEngine.handleAdd
        rw [if_pos (by simp [pathTruthy, pathIs, hpath, hne, h1])]
      have happly : GroupPatchEngine.apply [o] s cfg =
          .error ⟨400, "Add operation path '" ++ o.path.getD "" ++
                       "' is not supported.", some "invalidPath"⟩ := by
        unfold GroupPatchEngine.apply GroupPatchEngine.applyOps
        rw [hop]
        simp [hadd, Bind.bind, Except.bind]
      exact ⟨_, happly, rfl, rfl⟩
    · -- replace
      have hrep : GroupPatchEngine.handleReplace o s.displayName s.externalId
          s.members s.rawPayload = .error (GroupPatchEngine.replacePathError o.path) := by
        unfold GroupPatchEngine.handleReplace
        rw [if_neg (by simp [pathTruthy, hpath, hne]),
            if_neg (by simp [pathIs, hpath, h2]),
            if_neg (by simp [pathIs, hpath, h3]),
            if_neg (by simp [pathIs, hpath, h1])]
      have happly : GroupPatchEngine.apply [o] s cfg =
          .error (GroupPatchEngine.replacePathError o.path) := by
        unfold GroupPatchEngine.apply GroupPatchEngine.applyOps
        rw [hop]
        simp [hrep, Bind.bind, Except.bind]
      exact ⟨_, happly, rfl, rfl⟩
  · -- remove
    intro hop hval
    have hrem : GroupPatchEngine.handleRemove o s.members cfg.allowMultiMemberRemove
        cfg.allowRemoveAllMembers =
        .error ⟨400, "Remove operation path '" ++ o.path.getD "" ++
                     "' is not supported for groups.", some "invalidPath"⟩ := by
      unfold GroupPatchEngine.handleRemove
      split
      next x xs hv =>
        rw [hv] at hval
        simp at hval
      next hv =>
        simp [hpath, h4, pathIs, h1]
    have happly : GroupPatchEngine.apply [o] s cfg =
        .error ⟨400, "Remove operation path '" ++ o.path.getD "" ++
                     "' is not supported for groups.", some "invalidPath"⟩ := by
      unfold GroupPatchEngine.apply GroupPatchEngine.applyOps
      rw [hop]
      simp [hrem, Bind.bind, Except.bind]
    exact ⟨_, happly, rfl, rfl⟩

/-- Witness for C5 (amended) at a concrete unknown path for all three ops. -/
theorem c5_group_unknown_path_invalid_witness :
    (∃ e, GroupPatchEngine.apply [⟨"add", some "nickName", .str "x"⟩]
        ⟨"G", none, [], []⟩ ⟨true, true, true⟩ = .error e ∧
        e.status = 400 ∧ e.scimType = some "invalidPath") ∧
    (∃ e, GroupPatchEngine.apply [⟨"remove", some "nickName", .null⟩]
        ⟨"G", none, [], []⟩ ⟨true, true, true⟩ = .error e ∧
        e.status = 400 ∧ e.scimType = some "invalidPath") := by
  constructor
  · exact (c5_group_unknown_path_invalid ⟨"add", some "nickName", .str "x"⟩
      ⟨"G", none, [], []⟩ ⟨true, true, true⟩ "nickName" rfl (by decide)
      (by decide) (by decide) (by decide) (by decide)).1 (Or.inl rfl)
  · exact (c5_group_unknown_path_invalid ⟨"remove", some "nickName", .null⟩
      ⟨"G", none, [], []⟩ ⟨true, true, true⟩ "nickName" rfl (by decide)
      (by decide) (by decide) (by decide) (by decide)).2 rfl trivial

/-! ### Member dedup lemmas (C4) -/

theorem jsStrictEq_true_imp_eq (a b : JSVal) (h : a.jsStrictEq b = true) : a = b := by
  cases a <;> cases b <;> simp [JSVal.jsStrictEq] at h <;> simp [h]

theorem jsStrictEq_self_of_true (a b : JSVal) (h : a.jsStrictEq b = true) :
    b.jsStrictEq b = true := by
  have := jsStrictEq_true_imp_eq a b h
  subst this
  exact h

/-- No two member entries share a `value` (JS strict equality). -/
def valuesNodup (ms : List GroupMemberDto) : Prop :=
  List.Pairwise (fun a b => a.value.jsStrictEq b.value = false) ms

/-- Keys appearing after a `mapInsert` come from the map or the new key. -/
theorem mem_mapInsert_keys (seen : List (JSVal × GroupMemberDto)) (k : JSVal)
    (m : GroupMemberDto) (e : JSVal × GroupMemberDto)
    (he : e ∈ GroupPatchEngine.mapInsert seen k m) :
    (∃ e' ∈ seen, e.1 = e'.1) ∨ e.1 = k := by
  induction seen with
  | nil =>
    simp [GroupPatchEngine.mapInsert] at he
    simp [he]
  | cons a rest ih =>
    obtain ⟨k', m'⟩ := a
    by_cases h : k'.jsStrictEq k
    · simp [GroupPatchEngine.mapInsert, h] at he
      rcases he with he | he
      · exact Or.inl ⟨(k', m'), by simp, by simp [he]⟩
      · exact Or.inl ⟨e, by simp [he], rfl⟩
    · simp [GroupPatchEngine.mapInsert, h] at he
      rcases he with he | he
      · exact Or.inl ⟨(k', m'), by simp, by simp [he]⟩
      · rcases ih he with ⟨e', he', heq⟩ | heq
        · exact Or.inl ⟨e', by simp [he'], heq⟩
        · exact Or.inr heq

/-- `mapInsert` keeps every stored key equal to its member's `value`. -/
theorem mapInsert_key_inv (seen : List (JSVal × GroupMemberDto)) (m : GroupMemberDto)
    (hinv : ∀ e ∈ seen, e.1 = e.2.value) :
    ∀ e ∈ GroupPatchEngine.mapInsert seen m.value m, e.1 = e.2.value := by
  induction seen with
  | nil =>
    intro e he
    simp [GroupPatchEngine.mapInsert] at he
    simp [he]
  | cons a rest ih =>
    obtain ⟨k', m'⟩ := a
    intro e he
    by_cases h : k'.jsStrictEq m.value
    · simp [GroupPatchEngine.mapInsert, h] at he
      rcases he with he | he
      · rw [he]
        exact jsStrictEq_true_imp_eq _ _ h
      · exact hinv e (by simp [he])
    · simp [GroupPatchEngine.mapInsert, h] at he
      rcases he with he | he
      · rw [he]
        exact hinv (k', m') (by simp)
      · exact ih (fun x hx => hinv x (by simp [hx])) e he

/-- `mapInsert` preserves pairwise-distinct keys. -/
theorem mapInsert_pairwise (seen : List (JSVal × GroupMemberDto)) (k : JSVal)
    (m : GroupMemberDto)
    (hp : List.Pairwise (fun a b => a.1.jsStrictEq b.1 = false) seen) :
    List.Pairwise (fun a b => a.1.jsStrictEq b.1 = false)
      (GroupPatchEngine.mapInsert seen k m) := by
  induction seen with
  | nil => simp [GroupPatchEngine.mapInsert]
  | cons a rest ih =>
    obtain ⟨k', m'⟩ := a
    rw [List.pairwise_cons] at hp
    by_cases h : k'.jsStrictEq k
    · simp only [GroupPatchEngine.mapInsert, h, if_pos]
      rw [List.pairwise_cons]
      exact ⟨fun e he => hp.1 e he, hp.2⟩
    · simp only [GroupPatchEngine.mapInsert, h]
      rw [if_neg (by simp [h]), List.pairwise_cons]
      refine ⟨?_, ih hp.2⟩
      intro e he
      rcases mem_mapInsert_keys rest k m e he with ⟨e', he', heq⟩ | heq
      · rw [heq]
        exact hp.1 e' he'
      · rw [heq]
        simpa using h

/-- `ensureUniqueMembers` always returns a list without duplicate values. -/
theorem ensureUniqueMembers_nodup (l : List GroupMemberDto) :
    valuesNodup (GroupPatchEngine.ensureUniqueMembers l) := by
  have main : ∀ (seen : List (JSVal × GroupMemberDto)),
      (∀ e ∈ seen, e.1 = e.2.value) →
      List.Pairwise (fun a b => a.1.jsStrictEq b.1 = false) seen →
      (∀ e ∈ l.foldl (fun s mm => GroupPatchEngine.mapInsert s mm.value mm) seen,
         e.1 = e.2.value) ∧
      List.Pairwise (fun a b => a.1.jsStrictEq b.1 = false)
        (l.foldl (fun s mm => GroupPatchEngine.mapInsert s mm.value mm) seen) := by
    induction l with
    | nil => intro seen h1 h2; exact ⟨h1, h2⟩
    | cons mm rest ih =>
      intro seen h1 h2
      exact ih _ (mapInsert_key_inv seen mm h1) (mapInsert_pairwise seen mm.value mm h2)
  obtain ⟨hinv, hpair⟩ := main [] (by simp) (by simp)
  unfold valuesNodup GroupPatchEngine.ensureUniqueMembers
  rw [List.pairwise_map]
  refine hpair.imp_of_mem ?_
  intro a b ha hb hab
  rw [← hinv a ha, ← hinv b hb]
  exact hab

/-- The last-supplied member entry carrying a given `value`, if any. -/
def lastWins (l : List GroupMemberDto) (v : JSVal) : Option GroupMemberDto :=
  l.foldl (fun acc m => if m.value.jsStrictEq v then some m else acc) none

/-- The member stored in the fold map under a given value key. -/
def mapFind (seen : List (JSVal × GroupMemberDto)) (v : JSVal) : Option GroupMemberDto :=
  (seen.find? (fun e => e.1.jsStrictEq v)).map (·.2)

theorem mapFind_mapInsert (seen : List (JSVal × GroupMemberDto)) (k : JSVal)
    (m : GroupMemberDto) (v : JSVal) :
    mapFind (GroupPatchEngine.mapInsert seen k m) v =
      if k.jsStrictEq v then some m else mapFind seen v := by
  induction seen with
  | nil =>
    by_cases h : k.jsStrictEq v <;>
      simp [GroupPatchEngine.mapInsert, mapFind, List.find?, h]
  | cons a rest ih =>
    obtain ⟨k', m'⟩ := a
    by_cases hk' : k'.jsStrictEq k
    · have hkk : k' = k := jsStrictEq_true_imp_eq _ _ hk'
      subst hkk
      by_cases hv : k'.jsStrictEq v <;>
        simp [GroupPatchEngine.mapInsert, mapFind, List.find?, hk', hv]
    · by_cases hv : k'.jsStrictEq v
      · have hknv : k.jsStrictEq v = false := by
          cases h : k.jsStrictEq v
          · rfl
          · have h1 : k = v := jsStrictEq_true_imp_eq _ _ h
            have h2 : k' = v := jsStrictEq_true_imp_eq _ _ hv
            subst h1
            subst h2
            exact absurd (jsStrictEq_self_of_true _ _ hv) (by simp [hk'])
        simp [GroupPatchEngine.mapInsert, mapFind, List.find?, hk', hv, hknv]
      · have step : mapFind (GroupPatchEngine.mapInsert ((k', m') :: rest) k m) v =
            mapFind (GroupPatchEngine.mapInsert rest k m) v := by
          simp [GroupPatchEngine.mapInsert, hk', mapFind, List.find?, hv]
        have hrhs : mapFind ((k', m') :: rest) v = mapFind rest v := by
          simp [mapFind, List.find?, hv]
        rw [step, ih, hrhs]

theorem lastWins_acc (v : JSVal) (l : List GroupMemberDto) :
    ∀ (acc : Option GroupMemberDto),
    l.foldl (fun a mm => if mm.value.jsStrictEq v then some mm else a) acc =
      match lastWins l v with
      | some x => some x
      | none => acc := by
  induction l with
  | nil => intro acc; simp [lastWins]
  | cons mm rest ih =>
    intro acc
    show rest.foldl _ (if mm.value.jsStrictEq v then some mm else acc) = _
    rw [ih]
    have hl : lastWins (mm :: rest) v =
        match lastWins rest v with
        | some x => some x
        | none => if mm.value.jsStrictEq v then some mm else none := by
      show rest.foldl _ (if mm.value.jsStrictEq v then some mm else none) = _
      rw [ih]
    rw [hl]
    cases lastWins rest v with
    | none => by_cases h : mm.value.jsStrictEq v <;> simp [h]
    | some x => simp

theorem mapFind_foldl (v : JSVal) (l : List GroupMemberDto) :
    ∀ (seen : List (JSVal × GroupMemberDto)),
    mapFind (l.foldl (fun s mm => GroupPatchEngine.mapInsert s mm.value mm) seen) v =
      match lastWins l v with
      | some x => some x
      | none => mapFind seen v := by
  induction l with
  | nil => intro seen; simp [lastWins]
  | cons mm rest ih =>
    intro seen
    show mapFind (rest.foldl _ (GroupPatchEngine.mapInsert seen mm.value mm)) v = _
    rw [ih, mapFind_mapInsert]
    have hl : lastWins (mm :: rest) v =
        match lastWins rest v with
        | some x => some x
        | none => if mm.value.jsStrictEq v then some mm else none := by
      show rest.foldl _ (if mm.value.jsStrictEq v then some mm else none) = _
      rw [lastWins_acc]
    rw [hl]
    cases lastWins rest v with
    | none => by_cases h : mm.value.jsStrictEq v <;> simp [h]
    | some x => simp

theorem find?_congr_mem {α : Type} (l : List α) (p q : α → Bool)
    (h : ∀ x ∈ l, p x = q x) : l.find? p = l.find? q := by
  induction l with
  | nil => rfl
  | cons a rest ih =>
    have ha := h a (by simp)
    by_cases hp : p a
    · rw [List.find?_cons_of_pos _ hp, List.find?_cons_of_pos _ (by rw [← ha]; exact hp)]
    · rw [List.find?_cons_of_neg _ hp,
        List.find?_cons_of_neg _ (by rw [← ha]; simpa using hp),
        ih (fun x hx => h x (by simp [hx]))]

/-- Last-write-wins: looking a value up in the deduplicated list finds the
last supplied entry carrying that value. -/
theorem ensureUniqueMembers_lastWins (l : List GroupMemberDto) (v : JSVal) :
    (GroupPatchEngine.ensureUniqueMembers l).find?
        (fun m => m.value.jsStrictEq v) = lastWins l v := by
  unfold GroupPatchEngine.ensureUniqueMembers
  have hinv : ∀ e ∈ l.foldl (fun s mm => GroupPatchEngine.mapInsert s mm.value mm)
      ([] : List (JSVal × GroupMemberDto)), e.1 = e.2.value := by
    have main : ∀ (l' : List GroupMemberDto) (seen : List (JSVal × GroupMemberDto)),
        (∀ e ∈ seen, e.1 = e.2.value) →
        ∀ e ∈ l'.foldl (fun s mm => GroupPatchEngine.mapInsert s mm.value mm) seen,
          e.1 = e.2.value := by
      intro l'
      induction l' with
      | nil => intro seen h; exact h
      | cons mm rest ih => intro seen h; exact ih _ (mapInsert_key_inv seen mm h)
    exact main l [] (by simp)
  rw [List.find?_map]
  have hc : (l.foldl (fun s mm => GroupPatchEngine.mapInsert s mm.value mm) []).find?
        ((fun m => m.value.jsStrictEq v) ∘ (·.2)) =
      (l.foldl (fun s mm => GroupPatchEngine.mapInsert s mm.value mm) []).find?
        (fun e => e.1.jsStrictEq v) := by
    refine find?_congr_mem _ _ _ ?_
    intro e he
    simp [Function.comp, ← hinv e he]
  rw [hc]
  have := mapFind_foldl v l []
  unfold mapFind at this
  rw [this]
  cases lastWins l v <;> simp [mapFind, List.find?]

/-- A successful `handleAdd` always returns a deduplicated list. -/
theorem handleAdd_ok_shape (o : PatchOperation) (members : List GroupMemberDto)
    (flag : Bool) (ms : List GroupMemberDto)
    (h : GroupPatchEngine.handleAdd o members flag = .ok ms) :
    ∃ l, ms = GroupPatchEngine.ensureUniqueMembers l := by
  unfold GroupPatchEngine.handleAdd at h
  simp only [Bind.bind, Except.bind, pure, Except.pure] at h
  repeat' split at h
  all_goals try exact Except.noConfusion h
  all_goals injection h with h
  all_goals exact ⟨_, h.symm⟩

/-- A successful `handleReplace` leaves the members untouched or returns a
deduplicated list. -/
theorem handleReplace_ok_members (o : PatchOperation) (dn : String)
    (ext : Option String) (members : List GroupMemberDto) (payload : JSObj)
    (st' : GroupPatchState)
    (h : GroupPatchEngine.handleReplace o dn ext members payload = .ok st') :
    st'.members = members ∨ ∃ l, st'.members = GroupPatchEngine.ensureUniqueMembers l := by
  unfold GroupPatchEngine.handleReplace at h
  simp only [Bind.bind, Except.bind, pure, Except.pure] at h
  repeat' split at h
  all_goals try exact Except.noConfusion h
  all_goals injection h with h
  all_goals rw [← h]
  all_goals try exact Or.inl rfl
  all_goals exact Or.inr ⟨_, rfl⟩

/-- Add/replace batches preserve the no-duplicate-values invariant. -/
theorem groupApplyOps_members_nodup (ops : List PatchOperation) :
    ∀ (st : GroupPatchState) (cfg : GroupMemberPatchConfig) (final : GroupPatchState),
    (∀ o ∈ ops, lowerStr o.op = "add" ∨ lowerStr o.op = "replace") →
    valuesNodup st.members →
    GroupPatchEngine.applyOps ops st cfg = .ok final →
    valuesNodup final.members := by
  induction ops with
  | nil =>
    intro st cfg final _ hin h
    unfold GroupPatchEngine.applyOps at h
    injection h with h
    rw [← h]
    exact hin
  | cons o rest ih =>
    intro st cfg final hops hin h
    have hop := hops o (List.mem_cons_self _ _)
    unfold GroupPatchEngine.applyOps at h
    rcases hop with hop | hop <;> rw [hop] at h <;>
      simp only [Bind.bind, Except.bind] at h <;> norm_num at h
    · -- add
      cases hadd : GroupPatchEngine.handleAdd o st.members cfg.allowMultiMemberAdd with
      | error e => rw [hadd] at h; exact absurd h (by simp)
      | ok ms =>
        rw [hadd] at h
        simp only [pure, Except.pure] at h
        obtain ⟨l, hl⟩ := handleAdd_ok_shape o st.members cfg.allowMultiMemberAdd ms hadd
        refine ih _ cfg final (fun x hx => hops x (List.mem_cons_of_mem _ hx)) ?_ h
        rw [hl]
        exact ensureUniqueMembers_nodup l
    · -- replace
      cases hrep : GroupPatchEngine.handleReplace o st.displayName st.externalId
          st.members st.rawPayload with
      | error e => rw [hrep] at h; exact absurd h (by simp)
      | ok st1 =>
        rw [hrep] at h
        refine ih _ cfg final (fun x hx => hops x (List.mem_cons_of_mem _ hx)) ?_ h
        rcases handleReplace_ok_members o st.displayName st.externalId st.members
            st.rawPayload st1 hrep with hm | ⟨l, hl⟩
        · rw [hm]; exact hin
        · rw [hl]; exact ensureUniqueMembers_nodup l

/-- C4 (amended): provided the input state's member list has no duplicate
values, every accepted add/replace batch returns a member list with no two
entries sharing a `value`; and `ensureUniqueMembers` realizes
last-write-wins — looking any value up in a deduplicated list yields the
last supplied entry with that value. -/
theorem c4_member_dedup_invariant (ops : List PatchOperation) (s : GroupPatchState)
    (cfg : GroupMemberPatchConfig) (res : GroupPatchResult)
    (hops : ∀ o ∈ ops, lowerStr o.op = "add" ∨ lowerStr o.op = "replace")
    (hin : valuesNodup s.members)
    (hok : GroupPatchEngine.apply ops s cfg = .ok res) :
    valuesNodup res.members ∧
    ∀ (l : List GroupMemberDto) (v : JSVal),
      (GroupPatchEngine.ensureUniqueMembers l).find?
          (fun m => m.value.jsStrictEq v) = lastWins l v := by
  refine ⟨?_, fun l v => ensureUniqueMembers_lastWins l v⟩
  unfold GroupPatchEngine.apply at hok
  cases h : GroupPatchEngine.applyOps ops s cfg with
  | error e => rw [h] at hok; exact absurd hok (by simp [Bind.bind, Except.bind])
  | ok final =>
    rw [h] at hok
    simp only [Bind.bind, Except.bind] at hok
    injection hok with hok
    rw [← hok]
    exact groupApplyOps_members_nodup ops s cfg final hops hin h

/-- Witness for C4 (amended): adding `u1` twice with different display
attributes yields a single entry carrying the last attributes. -/
theorem c4_member_dedup_invariant_witness :
    GroupPatchEngine.apply
        [⟨"add", some "members",
          .arr [.obj [("value", .str "u1"), ("display", .str "first")],
                .obj [("value", .str "u2")],
                .obj [("value", .str "u1"), ("display", .str "second")]]⟩]
        ⟨"G", none, [], []⟩ ⟨true, true, true⟩ =
      .ok ⟨"G", none, [],
           [⟨.str "u1", .str "second", .undef⟩, ⟨.str "u2", .undef, .undef⟩]⟩ ∧
    valuesNodup [⟨.str "u1", .str "second", .undef⟩, ⟨.str "u2", .undef, .undef⟩] ∧
    lastWins [⟨.str "u1", .str "first", .undef⟩, ⟨.str "u1", .str "second", .undef⟩]
        (.str "u1") = some ⟨.str "u1", .str "second", .undef⟩ := by
  have h : GroupPatchEngine.apply
      [⟨"add", some "members",
        .arr [.obj [("value", .str "u1"), ("display", .str "first")],
              .obj [("value", .str "u2")],
              .obj [("value", .str "u1"), ("display", .str "second")]]⟩]
      ⟨"G", none, [], []⟩ ⟨true, true, true⟩ =
      .ok ⟨"G", none, [],
           [⟨.str "u1", .str "second", .undef⟩, ⟨.str "u2", .undef, .undef⟩]⟩ := rfl
  refine ⟨h, ?_, rfl⟩
  exact (c4_member_dedup_invariant _ _ _ _
    (by intro o ho; simp at ho; rw [ho]; exact Or.inl rfl) (by simp [valuesNodup]) h).1

/-- C4 counterexample (claim as frozen): with a state whose member list
already holds two entries sharing a value, an accepted replace operation
that does not touch members returns a member list with that duplicate
intact, so the claim's unconditional no-duplicates statement fails. -/
theorem c4_member_dedup_cex :
    GroupPatchEngine.apply [⟨"replace", some "displayName", .str "X"⟩]
        ⟨"G", none, [⟨.str "a", .str "d1", .undef⟩, ⟨.str "a", .str "d2", .undef⟩], []⟩
        ⟨true, true, true⟩ =
      .ok ⟨"X", none, [],
           [⟨.str "a", .str "d1", .undef⟩, ⟨.str "a", .str "d2", .undef⟩]⟩ ∧
    (JSVal.str "a").jsStrictEq (.str "a") = true := ⟨rfl, rfl⟩

/-! ### Push-down / evaluator equivalence (C1) -/

/-- The value shapes the filter grammar's comparison literals can take
(quoted string, number, boolean — §4.1). -/
def scalarLiteral : JSVal → Bool
  | .str _ => true
  | .num _ => true
  | .bool _ => true
  | _ => false

/-- All comparison literals in the AST are parser-producible scalars. -/
def parserValues : FilterNode → Prop
  | .compare _ _ v => scalarLiteral v = true
  | .logical _ l r => parserValues l ∧ parserValues r
  | .notNode i => parserValues i
  | .valuePath _ i => parserValues i

/-- No mapped column is named like a Prisma compound key (true of both
shipped column maps). -/
def WFColumnMap (cmap : ColumnMap) : Prop :=
  ∀ e ∈ cmap, e.2.column ≠ "AND" ∧ e.2.column ≠ "OR"

/-- The record reads each attribute the AST's comparisons touch at exactly
the mapped column key: in-memory attribute resolution and the storage
column access see the same stored value. -/
def columnAgrees (cmap : ColumnMap) (record : JSObj) : FilterNode → Prop
  | .compare a _ _ =>
    (match cmapLookup cmap (lowerStr a) with
     | some m => resolveAttr record a = jsGet record m.column
     | none => True)
  | .logical _ l r => columnAgrees cmap record l ∧ columnAgrees cmap record r
  | .notNode _ => True
  | .valuePath _ _ => True

theorem cmapLookup_mem (m : ColumnMap) (k : String) (v : ColumnMapping)
    (h : cmapLookup m k = some v) : (k, v) ∈ m := by
  induction m with
  | nil => simp [cmapLookup] at h
  | cons e rest ih =>
    obtain ⟨ek, ev⟩ := e
    by_cases hk : ek = k
    · subst hk
      simp [cmapLookup] at h
      simp [h]
    · simp [cmapLookup, hk] at h
      simp [ih h]

/-- Per-operator agreement: a produced column filter evaluates, on the
stored value at the column, exactly as the in-memory comparison does. -/
theorem buildColumnFilter_matches (col : String) (ty : ColumnType) (op : String)
    (v : JSVal) (record : JSObj) (w : JSObj)
    (hcol1 : col ≠ "AND") (hcol2 : col ≠ "OR") (hv : scalarLiteral v = true)
    (hw : buildColumnFilter col ty op v = some w) :
    matchesPrismaFilter record w = evalCompare op (jsGet record col) v := by
  unfold buildColumnFilter at hw
  split at hw
  · -- eq
    injection hw with hw
    subst hw
    cases v <;> simp [scalarLiteral] at hv <;>
      simp [matchesPrismaFilter, matchTopEntry, evalCompare, hcol1, hcol2]
  · -- ne
    injection hw with hw
    subst hw
    cases v <;> simp [scalarLiteral] at hv <;>
      simp [matchesPrismaFilter, matchTopEntry, matchOperator, jsGet, jsHasKey,
        JSVal.jsStrictEq, evalCompare, hcol1, hcol2]
  · -- co
    split at hw
    · exact Option.noConfusion hw
    · injection hw with hw
      subst hw
      cases hst : jsGet record col <;>
        simp [matchesPrismaFilter, matchTopEntry, matchOperator, jsGet, jsHasKey,
          JSVal.jsStrictEq, evalCompare, hcol1, hcol2, hst, JSVal.jsToString]
  · -- sw
    split at hw
    · exact Option.noConfusion hw
    · injection hw with hw
      subst hw
      cases hst : jsGet record col <;>
        simp [matchesPrismaFilter, matchTopEntry, matchOperator, jsGet, jsHasKey,
          JSVal.jsStrictEq, evalCompare, hcol1, hcol2, hst, JSVal.jsToString]
  · -- ew
    split at hw
    · exact Option.noConfusion hw
    · injection hw with hw
      subst hw
      cases hst : jsGet record col <;>
        simp [matchesPrismaFilter, matchTopEntry, matchOperator, jsGet, jsHasKey,
          JSVal.jsStrictEq, evalCompare, hcol1, hcol2, hst, JSVal.jsToString]
  · -- gt
    injection hw with hw
    subst hw
    simp [matchesPrismaFilter, matchTopEntry, matchOperator, jsGet, jsHasKey,
      JSVal.jsStrictEq, evalCompare, hcol1, hcol2]
  · -- ge
    injection hw with hw
    subst hw
    simp [matchesPrismaFilter, matchTopEntry, matchOperator, jsGet, jsHasKey,
      JSVal.jsStrictEq, evalCompare, hcol1, hcol2]
  · -- lt
    injection hw with hw
    subst hw
    simp [matchesPrismaFilter, matchTopEntry, matchOperator, jsGet, jsHasKey,
      JSVal.jsStrictEq, evalCompare, hcol1, hcol2]
  · -- le
    injection hw with hw
    subst hw
    simp [matchesPrismaFilter, matchTopEntry, matchOperator, jsGet, jsHasKey,
      JSVal.jsStrictEq, evalCompare, hcol1, hcol2]
  · -- pr
    injection hw with hw
    subst hw
    simp [matchesPrismaFilter, matchTopEntry, matchOperator, jsGet, jsHasKey,
      JSVal.jsStrictEq, evalCompare, hcol1, hcol2]
  · -- unknown operator
    exact Option.noConfusion hw

/-- C1 (amended): for every AST the planner pushes (and for parser-shaped
comparison literals), and every record reading the touched attributes at
their mapped column keys, the produced Prisma predicate agrees with the
in-memory evaluator. -/
theorem c1_pushdown_evaluator_equivalence (ast : FilterNode) :
    ∀ (cmap : ColumnMap) (w : JSObj) (record : JSObj),
    WFColumnMap cmap → parserValues ast → columnAgrees cmap record ast →
    tryPushToDb ast cmap = some w →
    matchesPrismaFilter record w = evaluateFilter ast record := by
  induction ast with
  | compare a op v =>
    intro cmap w record hwf hv ha hw
    unfold tryPushToDb pushCompareToDb at hw
    cases hlook : cmapLookup cmap (lowerStr a) with
    | none => rw [hlook] at hw; exact Option.noConfusion hw
    | some m =>
      rw [hlook] at hw
      have hmem := cmapLookup_mem cmap (lowerStr a) m hlook
      have hcol := hwf _ hmem
      unfold columnAgrees at ha
      rw [hlook] at ha
      rw [show evaluateFilter (.compare a op v) record =
            evalCompare op (resolveAttr record a) v from rfl, ha]
      exact buildColumnFilter_matches m.column m.type op v record w hcol.1 hcol.2 hv hw
  | logical op l r ihl ihr =>
    intro cmap w record hwf hv ha hw
    obtain ⟨hvl, hvr⟩ := hv
    obtain ⟨hal, har⟩ := ha
    unfold tryPushToDb at hw
    by_cases hand : op = "and"
    · subst hand
      rw [if_pos rfl] at hw
      cases hl : tryPushToDb l cmap with
      | none => rw [hl] at hw; exact Option.noConfusion hw
      | some lw =>
        cases hr : tryPushToDb r cmap with
        | none => rw [hl, hr] at hw; exact Option.noConfusion hw
        | some rw' =>
          rw [hl, hr] at hw
          injection hw with hw
          subst hw
          have hL := ihl cmap lw record hwf hvl hal hl
          have hR := ihr cmap rw' record hwf hvr har hr
          simp [matchesPrismaFilter, matchTopEntry, matchAllClauses, matchOneClause,
            evaluateFilter, hL, hR]
    · by_cases hor : op = "or"
      · subst hor
        rw [if_neg (by simp), if_pos rfl] at hw
        cases hl : tryPushToDb l cmap with
        | none => rw [hl] at hw; exact Option.noConfusion hw
        | some lw =>
          cases hr : tryPushToDb r cmap with
          | none => rw [hl, hr] at hw; exact Option.noConfusion hw
          | some rw' =>
            rw [hl, hr] at hw
            injection hw with hw
            subst hw
            have hL := ihl cmap lw record hwf hvl hal hl
            have hR := ihr cmap rw' record hwf hvr har hr
            simp [matchesPrismaFilter, matchTopEntry, matchAnyClauses, matchOneClause,
              evaluateFilter, hL, hR, hand]
      · rw [if_neg hand, if_neg hor] at hw
        exact Option.noConfusion hw
  | notNode i ih =>
    intro cmap w record _ _ _ hw
    exact Option.noConfusion hw
  | valuePath a i ih =>
    intro cmap w record _ _ _ hw
    exact Option.noConfusion hw

/-- Witness for C1 at `userName eq "john"` against the user column map and
a record storing a case-variant value under the mapped column. -/
theorem c1_pushdown_evaluator_equivalence_witness :
    (WFColumnMap USER_DB_COLUMNS ∧
     parserValues (.compare "userName" "eq" (.str "john")) ∧
     columnAgrees USER_DB_COLUMNS [("userName", .str "John")]
       (.compare "userName" "eq" (.str "john")) ∧
     tryPushToDb (.compare "userName" "eq" (.str "john")) USER_DB_COLUMNS =
       some [("userName", .str "john")]) ∧
    matchesPrismaFilter [("userName", .str "John")] [("userName", .str "john")] =
      evaluateFilter (.compare "userName" "eq" (.str "john"))
        [("userName", .str "John")] := by
  have hwf : WFColumnMap USER_DB_COLUMNS := by
    intro e he
    simp [USER_DB_COLUMNS] at he
    rcases he with he | he | he | he | he <;> rw [he] <;> exact ⟨by decide, by decide⟩
  have hpv : parserValues (.compare "userName" "eq" (.str "john")) := rfl
  have hag : columnAgrees USER_DB_COLUMNS [("userName", .str "John")]
      (.compare "userName" "eq" (.str "john")) := rfl
  exact ⟨⟨hwf, hpv, hag, rfl⟩,
    c1_pushdown_evaluator_equivalence _ USER_DB_COLUMNS _ _ hwf hpv hag rfl⟩

/-- C1 counterexample (claim as frozen): the attribute `id` is pushable
(mapped to the `scimId` column, fetchAll=false, non-empty dbWhere), yet on
the record `{id: "a"}` the in-memory evaluator accepts while the produced
Prisma predicate reads the renamed column and rejects. -/
theorem c1_pushdown_evaluator_cex :
    tryPushToDb (.compare "id" "eq" (.str "a")) USER_DB_COLUMNS =
      some [("scimId", .str "a")] ∧
    (buildFilterResult (.compare "id" "eq" (.str "a")) USER_DB_COLUMNS).fetchAll
      = false ∧
    (buildFilterResult (.compare "id" "eq" (.str "a")) USER_DB_COLUMNS).dbWhere
      = [("scimId", .str "a")] ∧
    evaluateFilter (.compare "id" "eq" (.str "a")) [("id", .str "a")] = true ∧
    matchesPrismaFilter [("id", .str "a")] [("scimId", .str "a")] = false :=
  ⟨rfl, rfl, rfl, rfl, rfl⟩

/-! ### Replace idempotence machinery (C9) -/

/-- Reservedness is determined by the lower-cased key. -/
theorem isReservedKey_eq_lower (k : String) :
    UserPatchEngine.isReservedKey k =
      UserPatchEngine.RESERVED_ATTRIBUTES.contains (lowerStr k) := by
  unfold UserPatchEngine.isReservedKey
  cases hlow : UserPatchEngine.RESERVED_ATTRIBUTES.contains (lowerStr k)
  · cases hex : UserPatchEngine.RESERVED_ATTRIBUTES.contains k
    · simp
    · exfalso
      have hmem : k ∈ UserPatchEngine.RESERVED_ATTRIBUTES := by
        simpa using hex
      simp [UserPatchEngine.RESERVED_ATTRIBUTES] at hmem
      rcases hmem with h | h | h | h | h | h | h <;> subst h <;>
        revert hlow <;> decide
  · simp [hlow]

theorem isReservedKey_congr_lower (k k' : String) (h : lowerStr k = lowerStr k') :
    UserPatchEngine.isReservedKey k = UserPatchEngine.isReservedKey k' := by
  rw [isReservedKey_eq_lower, isReservedKey_eq_lower, h]

/-- Writing to an absent key appends it. -/
theorem jsSet_append_of_not_hasKey (p : JSObj) (k : String) (v : JSVal)
    (h : jsHasKey p k = false) : jsSet p k v = p ++ [(k, v)] := by
  induction p with
  | nil => rfl
  | cons e rest ih =>
    obtain ⟨ek, ev⟩ := e
    simp [jsHasKey] at h
    simp [jsSet, h.1, ih h.2]

/-- Replacing the value stored at the first key-predicate hit (writing by
its exact key) keeps it the first hit, now carrying the new value. -/
theorem find?_jsSet_of_find? (p : JSObj) (q : String × JSVal → Bool)
    (pk : String) (w0 w : JSVal)
    (hfind : p.find? q = some (pk, w0))
    (hq : ∀ x : String × JSVal, x.1 = pk → q x = true) :
    (jsSet p pk w).find? q = some (pk, w) := by
  induction p with
  | nil => simp [List.find?] at hfind
  | cons e rest ih =>
    obtain ⟨ek, ev⟩ := e
    by_cases hqe : q (ek, ev)
    · rw [List.find?_cons_of_pos _ hqe] at hfind
      injection hfind with hfind
      have hek : ek = pk := congrArg Prod.fst hfind
      subst hek
      rw [show jsSet ((ek, ev) :: rest) ek w = (ek, w) :: rest by simp [jsSet]]
      rw [List.find?_cons_of_pos _ (hq (ek, w) rfl)]
    · rw [List.find?_cons_of_neg _ hqe] at hfind
      have hne : ek ≠ pk := fun hh => hqe (hq (ek, ev) hh)
      rw [show jsSet ((ek, ev) :: rest) pk w = (ek, ev) :: jsSet rest pk w by
        simp [jsSet, hne]]
      rw [List.find?_cons_of_neg _ hqe]
      exact ih hfind

/-- Appending a predicate hit to a miss-only list makes it the first hit. -/
theorem find?_append_hit (p : JSObj) (q : String × JSVal → Bool)
    (e : String × JSVal) (hnone : p.find? q = none) (he : q e = true) :
    (p ++ [e]).find? q = some e := by
  induction p with
  | nil => simp [List.find?, he]
  | cons a rest ih =>
    by_cases hqa : q a
    · rw [List.find?_cons_of_pos _ hqa] at hnone
      exact Option.noConfusion hnone
    · rw [List.find?_cons_of_neg _ hqa] at hnone
      rw [List.cons_append, List.find?_cons_of_neg _ hqa]
      exact ih hnone

/-- Core single-key idempotence: writing `g` of the stored value, then
re-applying the same update to the stripped result, strips to the same
object — provided `g` is idempotent on the original stored value. -/
theorem strip_jsSetG_idem (P : JSObj) (k : String) (g : JSVal → JSVal)
    (hidem : g (g (jsGet P k)) = g (jsGet P k)) :
    UserPatchEngine.stripReservedAttributes
      (jsSet (UserPatchEngine.stripReservedAttributes (jsSet P k (g (jsGet P k)))) k
        (g (jsGet (UserPatchEngine.stripReservedAttributes
              (jsSet P k (g (jsGet P k)))) k))) =
    UserPatchEngine.stripReservedAttributes (jsSet P k (g (jsGet P k))) := by
  by_cases hres : UserPatchEngine.isReservedKey k
  · rw [strip_jsSet_reserved _ _ _ hres, strip_jsSet_reserved _ _ _ hres, strip_strip]
  · have hget : jsGet (UserPatchEngine.stripReservedAttributes
        (jsSet P k (g (jsGet P k)))) k = g (jsGet P k) := by
      rw [jsGet_strip, if_neg hres, jsGet_jsSet, if_pos rfl]
    have hhas : jsHasKey (UserPatchEngine.stripReservedAttributes
        (jsSet P k (g (jsGet P k)))) k = true := by
      rw [jsHasKey_strip, jsHasKey_jsSet]
      simp [hres]
    rw [hget, hidem, jsSet_self _ _ _ hhas hget, strip_strip]

/-- Re-applying the same extension-attribute assignment to the stripped
result changes nothing (up to stripping). -/
theorem strip_extensionUpdate_idem (P : JSObj) (urn sub : String) (v : JSVal) :
    UserPatchEngine.stripReservedAttributes
      (applyExtensionUpdate
        (UserPatchEngine.stripReservedAttributes (applyExtensionUpdate P urn sub v))
        urn sub v) =
    UserPatchEngine.stripReservedAttributes (applyExtensionUpdate P urn sub v) := by
  have hg : ∀ (X : JSObj), applyExtensionUpdate X urn sub v =
      jsSet X urn ((fun x => JSVal.obj (jsSet
        (match x with
         | JSVal.obj o => o
         | _ => []) sub v)) (jsGet X urn)) := fun X => rfl
  simp only [hg]
  have hidem : (fun x => JSVal.obj (jsSet
        (match x with
         | JSVal.obj o => o
         | _ => []) sub v))
      ((fun x => JSVal.obj (jsSet
        (match x with
         | JSVal.obj o => o
         | _ => []) sub v)) (jsGet P urn)) =
      (fun x => JSVal.obj (jsSet
        (match x with
         | JSVal.obj o => o
         | _ => []) sub v)) (jsGet P urn) := by
    cases jsGet P urn <;> simp [jsSet_jsSet]
  exact strip_jsSetG_idem P urn (fun x => JSVal.obj (jsSet
        (match x with
         | JSVal.obj o => o
         | _ => []) sub v)) hidem

/-- The element transform a value-path `replace` applies is idempotent. -/
theorem vpTransform_idem (vp : ValuePathRef) (v : JSVal) (el : JSVal) :
    (fun e => if elemMatchesVP vp e then
        match vp.subAttr with
        | some s0 =>
          match e with
          | .obj o => JSVal.obj (jsSet o s0 v)
          | _ => e
        | none => v
      else e)
      ((fun e => if elemMatchesVP vp e then
        match vp.subAttr with
        | some s0 =>
          match e with
          | .obj o => JSVal.obj (jsSet o s0 v)
          | _ => e
        | none => v
      else e) el) =
    (fun e => if elemMatchesVP vp e then
        match vp.subAttr with
        | some s0 =>
          match e with
          | .obj o => JSVal.obj (jsSet o s0 v)
          | _ => e
        | none => v
      else e) el := by
  by_cases hm : elemMatchesVP vp el
  · cases hsub : vp.subAttr with
    | none =>
      by_cases hv : elemMatchesVP vp v <;> simp [hm, hv, hsub]
    | some s0 =>
      cases el with
      | obj o =>
        by_cases hm2 : elemMatchesVP vp (.obj (jsSet o s0 v)) <;>
          simp [hm, hm2, hsub, jsSet_jsSet]
      | null => simp [elemMatchesVP] at hm
      | undef => simp [elemMatchesVP] at hm
      | bool b => simp [elemMatchesVP] at hm
      | num n => simp [elemMatchesVP] at hm
      | str s => simp [elemMatchesVP] at hm
      | arr es => simp [elemMatchesVP] at hm
  · simp [hm]

/-- Re-applying the same value-path `replace` to the stripped result
changes nothing (up to stripping). -/
theorem strip_valuePathUpdate_idem (P : JSObj) (vp : ValuePathRef) (v : JSVal) :
    UserPatchEngine.stripReservedAttributes
      (applyValuePathUpdate
        (UserPatchEngine.stripReservedAttributes (applyValuePathUpdate P vp v))
        vp v) =
    UserPatchEngine.stripReservedAttributes (applyValuePathUpdate P vp v) := by
  have hg : ∀ (X : JSObj), applyValuePathUpdate X vp v =
      jsSet X vp.attr ((fun x =>
        JSVal.arr ((match x with
          | JSVal.arr es => es
          | _ => []).map (fun el =>
            if elemMatchesVP vp el then
              match vp.subAttr with
              | some s0 =>
                match el with
                | .obj o => JSVal.obj (jsSet o s0 v)
                | _ => el
              | none => v
            else el))) (jsGet X vp.attr)) := fun X => rfl
  simp only [hg]
  have hmapmap : ∀ (es : List JSVal),
      (es.map (fun el =>
        if elemMatchesVP vp el then
          match vp.subAttr with
          | some s0 =>
            match el with
            | .obj o => JSVal.obj (jsSet o s0 v)
            | _ => el
          | none => v
        else el)).map (fun el =>
        if elemMatchesVP vp el then
          match vp.subAttr with
          | some s0 =>
            match el with
            | .obj o => JSVal.obj (jsSet o s0 v)
            | _ => el
          | none => v
        else el) =
      es.map (fun el =>
        if elemMatchesVP vp el then
          match vp.subAttr with
          | some s0 =>
            match el with
            | .obj o => JSVal.obj (jsSet o s0 v)
            | _ => el
          | none => v
        else el) := by
    intro es
    rw [List.map_map]
    refine List.map_congr_left ?_
    intro el _
    exact vpTransform_idem vp v el
  have hidem : (fun x =>
        JSVal.arr ((match x with
          | JSVal.arr es => es
          | _ => []).map (fun el =>
            if elemMatchesVP vp el then
              match vp.subAttr with
              | some s0 =>
                match el with
                | .obj o => JSVal.obj (jsSet o s0 v)
                | _ => el
              | none => v
            else el)))
      ((fun x =>
        JSVal.arr ((match x with
          | JSVal.arr es => es
          | _ => []).map (fun el =>
            if elemMatchesVP vp el then
              match vp.subAttr with
              | some s0 =>
                match el with
                | .obj o => JSVal.obj (jsSet o s0 v)
                | _ => el
              | none => v
            else el))) (jsGet P vp.attr)) =
      (fun x =>
        JSVal.arr ((match x with
          | JSVal.arr es => es
          | _ => []).map (fun el =>
            if elemMatchesVP vp el then
              match vp.subAttr with
              | some s0 =>
                match el with
                | .obj o => JSVal.obj (jsSet o s0 v)
                | _ => el
              | none => v
            else el))) (jsGet P vp.attr) := by
    cases jsGet P vp.attr <;> try rfl
    exact congrArg JSVal.arr (hmapmap _)
  exact strip_jsSetG_idem P vp.attr (fun x =>
        JSVal.arr ((match x with
          | JSVal.arr es => es
          | _ => []).map (fun el =>
            if elemMatchesVP vp el then
              match vp.subAttr with
              | some s0 =>
                match el with
                | .obj o => JSVal.obj (jsSet o s0 v)
                | _ => el
              | none => v
            else el))) hidem
/-- `find?` over a key-filtered object is `none` when every entry the
search predicate accepts is rejected by the key filter. -/
theorem find?_filter_none_of_imp (p : JSObj) (q : String × JSVal → Bool)
    (r : String → Bool) (h : ∀ x : String × JSVal, q x = true → r x.1 = false) :
    (p.filter (fun x => r x.1)).find? q = none := by
  induction p with
  | nil => simp [List.find?]
  | cons a rest ih =>
    cases hr : r a.1 with
    | false => simp [List.filter_cons, hr, ih]
    | true =>
      have hqa : q a = false := by
        cases hqa : q a
        · rfl
        · rw [h a hqa] at hr
          exact Bool.noConfusion hr
      simp [List.filter_cons, hr, List.find?, hqa, ih]

/-- The value `applyDotNotation` stores is idempotent as a transform. -/
theorem dotG_idem (ca : String) (v : JSVal) (y : JSVal) :
    UserPatchEngine.dotG ca v (UserPatchEngine.dotG ca v y) =
      UserPatchEngine.dotG ca v y := by
  cases y <;> simp [UserPatchEngine.dotG, jsSet_jsSet, jsSet]

/-- `applyDotNotation` in closed form: one `jsSet` of the stored object at
the resolved parent key. -/
theorem applyDotNotation_eq (raw : JSObj) (p : String) (v : JSVal) :
    UserPatchEngine.applyDotNotation raw p v =
      jsSet raw (UserPatchEngine.dotParentKey raw (UserPatchEngine.parentAttrOf p))
        (UserPatchEngine.dotG (UserPatchEngine.childAttrOf p) v
          (jsGet raw (UserPatchEngine.dotParentKey raw (UserPatchEngine.parentAttrOf p)))) := by
  show (match jsGet raw (UserPatchEngine.dotParentKey raw (UserPatchEngine.parentAttrOf p)) with
        | JSVal.obj o =>
          jsSet raw (UserPatchEngine.dotParentKey raw (UserPatchEngine.parentAttrOf p))
            (JSVal.obj (jsSet o (UserPatchEngine.childAttrOf p) v))
        | _ =>
          jsSet raw (UserPatchEngine.dotParentKey raw (UserPatchEngine.parentAttrOf p))
            (JSVal.obj [(UserPatchEngine.childAttrOf p, v)])) = _
  cases jsGet raw (UserPatchEngine.dotParentKey raw (UserPatchEngine.parentAttrOf p)) <;> rfl

/-- Re-applying the same verbose dot-notation assignment to the stripped
result changes nothing (up to stripping). -/
theorem strip_dotUpdate_idem (P : JSObj) (p : String) (v : JSVal) :
    UserPatchEngine.stripReservedAttributes
      (UserPatchEngine.applyDotNotation
        (UserPatchEngine.stripReservedAttributes (UserPatchEngine.applyDotNotation P p v))
        p v) =
    UserPatchEngine.stripReservedAttributes (UserPatchEngine.applyDotNotation P p v) := by
  by_cases hres : UserPatchEngine.isReservedKey (UserPatchEngine.parentAttrOf p) = true
  case pos =>
    have hmatch : ∀ x : String × JSVal,
        (decide (lowerStr x.1 = lowerStr (UserPatchEngine.parentAttrOf p))) = true →
        UserPatchEngine.isReservedKey x.1 = true := by
      intro x hx
      have hx' : lowerStr x.1 = lowerStr (UserPatchEngine.parentAttrOf p) :=
        of_decide_eq_true hx
      rw [isReservedKey_congr_lower x.1 (UserPatchEngine.parentAttrOf p) hx']
      exact hres
    have hpk1 : UserPatchEngine.isReservedKey
        (UserPatchEngine.dotParentKey P (UserPatchEngine.parentAttrOf p)) = true := by
      unfold UserPatchEngine.dotParentKey
      cases hf : P.find? (fun e => lowerStr e.1 = lowerStr (UserPatchEngine.parentAttrOf p)) with
      | none => exact hres
      | some e =>
        have h1 := @List.find?_some _
          (fun e : String × JSVal =>
            decide (lowerStr e.1 = lowerStr (UserPatchEngine.parentAttrOf p))) e P hf
        exact hmatch e h1
    have hSA : UserPatchEngine.stripReservedAttributes (UserPatchEngine.applyDotNotation P p v) =
        UserPatchEngine.stripReservedAttributes P := by
      rw [applyDotNotation_eq]
      exact strip_jsSet_reserved _ _ _ hpk1
    rw [hSA]
    have hnone : (UserPatchEngine.stripReservedAttributes P).find?
        (fun e => lowerStr e.1 = lowerStr (UserPatchEngine.parentAttrOf p)) = none := by
      refine find?_filter_none_of_imp P _ (fun k => !UserPatchEngine.isReservedKey k) ?_
      intro x hx
      show (!UserPatchEngine.isReservedKey x.1) = false
      rw [hmatch x hx]
      rfl
    have hpk2 : UserPatchEngine.dotParentKey (UserPatchEngine.stripReservedAttributes P)
        (UserPatchEngine.parentAttrOf p) = UserPatchEngine.parentAttrOf p := by
      unfold UserPatchEngine.dotParentKey
      rw [hnone]
    rw [applyDotNotation_eq, hpk2, strip_jsSet_reserved _ _ _ hres, strip_strip]
  case neg =>
    have hres' : UserPatchEngine.isReservedKey (UserPatchEngine.parentAttrOf p) = false := by
      cases h : UserPatchEngine.isReservedKey (UserPatchEngine.parentAttrOf p)
      · rfl
      · exact absurd h hres
    obtain ⟨pk, hlowpk, hpkdef, hfindA⟩ :
        ∃ pk, lowerStr pk = lowerStr (UserPatchEngine.parentAttrOf p) ∧
          UserPatchEngine.dotParentKey P (UserPatchEngine.parentAttrOf p) = pk ∧
          (UserPatchEngine.applyDotNotation P p v).find?
            (fun e => lowerStr e.1 = lowerStr (UserPatchEngine.parentAttrOf p)) =
            some (pk, UserPatchEngine.dotG (UserPatchEngine.childAttrOf p) v (jsGet P pk)) := by
      cases hf : P.find? (fun e => lowerStr e.1 = lowerStr (UserPatchEngine.parentAttrOf p)) with
      | some e =>
        obtain ⟨k0, w0⟩ := e
        have h1 := @List.find?_some _
          (fun e : String × JSVal =>
            decide (lowerStr e.1 = lowerStr (UserPatchEngine.parentAttrOf p))) (k0, w0) P hf
        have hq0 : lowerStr k0 = lowerStr (UserPatchEngine.parentAttrOf p) :=
          of_decide_eq_true h1
        have hpkdef : UserPatchEngine.dotParentKey P (UserPatchEngine.parentAttrOf p) = k0 := by
          unfold UserPatchEngine.dotParentKey
          rw [hf]
        refine ⟨k0, hq0, hpkdef, ?_⟩
        rw [applyDotNotation_eq, hpkdef]
        refine find?_jsSet_of_find? P _ k0 w0 _ hf ?_
        intro x hx
        rw [hx]
        simp [hq0]
      | none =>
        have hpkdef : UserPatchEngine.dotParentKey P (UserPatchEngine.parentAttrOf p) =
            UserPatchEngine.parentAttrOf p := by
          unfold UserPatchEngine.dotParentKey
          rw [hf]
        have hhk : jsHasKey P (UserPatchEngine.parentAttrOf p) = false := by
          cases hhk : jsHasKey P (UserPatchEngine.parentAttrOf p)
          · rfl
          · have hmem := (jsHasKey_iff_mem P (UserPatchEngine.parentAttrOf p)).mp hhk
            obtain ⟨e, heP, he1⟩ := List.mem_map.mp hmem
            have hne := List.find?_eq_none.mp hf e heP
            exact absurd (by simp [he1] : (fun e : String × JSVal =>
              decide (lowerStr e.1 = lowerStr (UserPatchEngine.parentAttrOf p))) e = true) hne
        refine ⟨UserPatchEngine.parentAttrOf p, rfl, hpkdef, ?_⟩
        rw [applyDotNotation_eq, hpkdef,
          jsSet_append_of_not_hasKey P (UserPatchEngine.parentAttrOf p) _ hhk]
        refine find?_append_hit P _ _ hf ?_
        simp
    have hrespk : UserPatchEngine.isReservedKey pk = false := by
      rw [isReservedKey_congr_lower pk (UserPatchEngine.parentAttrOf p) hlowpk]
      exact hres'
    have hA : UserPatchEngine.applyDotNotation P p v =
        jsSet P pk (UserPatchEngine.dotG (UserPatchEngine.childAttrOf p) v (jsGet P pk)) := by
      rw [applyDotNotation_eq, hpkdef]
    rw [hA] at hfindA ⊢
    have hfindSA : (UserPatchEngine.stripReservedAttributes
        (jsSet P pk (UserPatchEngine.dotG (UserPatchEngine.childAttrOf p) v (jsGet P pk)))).find?
        (fun e => lowerStr e.1 = lowerStr (UserPatchEngine.parentAttrOf p)) =
        some (pk, UserPatchEngine.dotG (UserPatchEngine.childAttrOf p) v (jsGet P pk)) := by
      refine find?_filter_of_find? _ _ (fun k => !UserPatchEngine.isReservedKey k) _ hfindA ?_
      show (!UserPatchEngine.isReservedKey pk) = true
      rw [hrespk]
      rfl
    have hpk2 : UserPatchEngine.dotParentKey
        (UserPatchEngine.stripReservedAttributes
          (jsSet P pk (UserPatchEngine.dotG (UserPatchEngine.childAttrOf p) v (jsGet P pk))))
        (UserPatchEngine.parentAttrOf p) = pk := by
      unfold UserPatchEngine.dotParentKey
      rw [hfindSA]
    rw [applyDotNotation_eq, hpk2]
    exact strip_jsSetG_idem P pk
      (UserPatchEngine.dotG (UserPatchEngine.childAttrOf p) v) (dotG_idem _ _ _)
/-- The payload fold of the group no-path object replace equals merging
the entries the key guard lets through. -/
theorem groupFold_eq_resolve (l : JSObj) : ∀ (X : JSObj),
    l.foldl (fun acc e =>
      if e.1 ≠ "displayName" ∧ e.1 ≠ "externalId" ∧ e.1 ≠ "members" ∧ e.1 ≠ "schemas"
      then jsSet acc e.1 e.2 else acc) X =
    resolveNoPathValue X (l.filter (fun e =>
      decide (e.1 ≠ "displayName" ∧ e.1 ≠ "externalId" ∧ e.1 ≠ "members" ∧
        e.1 ≠ "schemas"))) := by
  induction l with
  | nil => intro X; rfl
  | cons a rest ih =>
    intro X
    by_cases h : a.1 ≠ "displayName" ∧ a.1 ≠ "externalId" ∧ a.1 ≠ "members" ∧ a.1 ≠ "schemas"
    · rw [List.foldl_cons, if_pos h, ih,
        show ((a :: rest).filter (fun e =>
          decide (e.1 ≠ "displayName" ∧ e.1 ≠ "externalId" ∧ e.1 ≠ "members" ∧
            e.1 ≠ "schemas"))) = a :: rest.filter (fun e =>
          decide (e.1 ≠ "displayName" ∧ e.1 ≠ "externalId" ∧ e.1 ≠ "members" ∧
            e.1 ≠ "schemas")) by simp [List.filter_cons, h]]
      rfl
    · rw [List.foldl_cons, if_neg h, ih,
        show ((a :: rest).filter (fun e =>
          decide (e.1 ≠ "displayName" ∧ e.1 ≠ "externalId" ∧ e.1 ≠ "members" ∧
            e.1 ≠ "schemas"))) = rest.filter (fun e =>
          decide (e.1 ≠ "displayName" ∧ e.1 ≠ "externalId" ∧ e.1 ≠ "members" ∧
            e.1 ≠ "schemas")) by simp [List.filter_cons, h]]
/-- A group `replace` that succeeds is exactly idempotent: re-running it
on the state it produced returns that state unchanged. -/
theorem handleReplace_idem (operation : PatchOperation) (dn : String) (eid : Option String)
    (ms : List GroupMemberDto) (raw : JSObj) (st' : GroupPatchState) (hnd : NoDupKeys raw)
    (h : GroupPatchEngine.handleReplace operation dn eid ms raw = .ok st') :
    GroupPatchEngine.handleReplace operation st'.displayName st'.externalId st'.members
      st'.rawPayload = .ok st' := by
  have hfold : (jsEntries operation.value).foldl (fun acc e =>
      if e.1 ≠ "displayName" ∧ e.1 ≠ "externalId" ∧ e.1 ≠ "members" ∧ e.1 ≠ "schemas"
      then jsSet acc e.1 e.2 else acc)
      ((jsEntries operation.value).foldl (fun acc e =>
        if e.1 ≠ "displayName" ∧ e.1 ≠ "externalId" ∧ e.1 ≠ "members" ∧ e.1 ≠ "schemas"
        then jsSet acc e.1 e.2 else acc) raw) =
      (jsEntries operation.value).foldl (fun acc e =>
        if e.1 ≠ "displayName" ∧ e.1 ≠ "externalId" ∧ e.1 ≠ "members" ∧ e.1 ≠ "schemas"
        then jsSet acc e.1 e.2 else acc) raw := by
    rw [groupFold_eq_resolve, groupFold_eq_resolve]
    exact resolveNoPathValue_idem _ _ hnd
  unfold GroupPatchEngine.handleReplace at h
  simp only [Bind.bind, Except.bind, pure, Except.pure] at h
  repeat' split at h
  all_goals try exact Except.noConfusion h
  all_goals injection h with h
  all_goals rw [← h]
  all_goals unfold GroupPatchEngine.handleReplace
  all_goals simp only [Bind.bind, Except.bind, pure, Except.pure]
  all_goals try simp only [List.mapM] at *
  all_goals simp [*, hfold]
/-- A successful no-path object merge is idempotent up to stripping: the
same merge on the stripped result yields the same stripped payload and the
same extracted fields. -/
theorem applyNoPathMerge_idem (v : JSVal) (s final : UserPatchState)
    (hnd : NoDupKeys s.rawPayload)
    (h : UserPatchEngine.applyNoPathMerge v s = .ok final) :
    ∃ final2 : UserPatchState,
      UserPatchEngine.applyNoPathMerge v
        ⟨final.userName, final.displayName, final.externalId, final.active,
         UserPatchEngine.stripReservedAttributes final.rawPayload⟩ = .ok final2 ∧
      UserPatchEngine.stripReservedAttributes final2.rawPayload =
        UserPatchEngine.stripReservedAttributes final.rawPayload ∧
      final2.userName = final.userName ∧ final2.displayName = final.displayName ∧
      final2.externalId = final.externalId ∧ final2.active = final.active := by
  unfold UserPatchEngine.applyNoPathMerge at h
  simp only [Bind.bind, Except.bind, pure, Except.pure] at h
  repeat' split at h
  all_goals try exact Except.noConfusion h
  all_goals injection h with h
  all_goals rw [← h]
  all_goals unfold UserPatchEngine.applyNoPathMerge
  all_goals simp only [Bind.bind, Except.bind, pure, Except.pure]
  all_goals simp only [*]
  all_goals refine ⟨_, rfl, ?_, rfl, rfl, rfl, rfl⟩
  all_goals exact strip_resolveNoPathValue_idem _ _ hnd
/-- A successful user `replace` operation is idempotent up to stripping:
re-running it on the stripped result yields the same stripped payload and
the same extracted fields. -/
theorem applyAddOrReplace_replace_idem (pathOpt : Option String) (v : JSVal)
    (s final : UserPatchState) (config : PatchConfig) (hnd : NoDupKeys s.rawPayload)
    (h : UserPatchEngine.applyAddOrReplace "replace" pathOpt v s config = .ok final) :
    ∃ final2 : UserPatchState,
      UserPatchEngine.applyAddOrReplace "replace" pathOpt v
        ⟨final.userName, final.displayName, final.externalId, final.active,
         UserPatchEngine.stripReservedAttributes final.rawPayload⟩ config = .ok final2 ∧
      UserPatchEngine.stripReservedAttributes final2.rawPayload =
        UserPatchEngine.stripReservedAttributes final.rawPayload ∧
      final2.userName = final.userName ∧ final2.displayName = final.displayName ∧
      final2.externalId = final.externalId ∧ final2.active = final.active := by
  unfold UserPatchEngine.applyAddOrReplace at h ⊢
  simp only [Bind.bind, Except.bind, pure, Except.pure] at h ⊢
  cases pathOpt with
  | none =>
    simp only [Option.map_none', pathIs, Bool.false_eq_true, if_false] at h ⊢
    by_cases hv : v.isObjectLike = true
    · rw [if_pos hv] at h ⊢
      exact applyNoPathMerge_idem v s final hnd h
    · rw [if_neg hv] at h ⊢
      injection h with h
      rw [← h]
      exact ⟨_, rfl, strip_strip _, rfl, rfl, rfl, rfl⟩
  | some p =>
    simp only [Option.map_some', pathIs, decide_eq_true_eq] at h ⊢
    by_cases hc1 : lowerStr p = "active"
    · rw [if_pos hc1] at h ⊢
      cases hb : UserPatchEngine.extractBooleanValue v with
      | error e => rw [hb] at h; exact Except.noConfusion h
      | ok b =>
        rw [hb] at h
        injection h with h
        rw [← h]
        exact ⟨_, rfl, strip_jsSetG_idem s.rawPayload "active" (fun _ => JSVal.bool b) rfl,
          rfl, rfl, rfl, rfl⟩
    · rw [if_neg hc1] at h ⊢
      by_cases hc2 : lowerStr p = "username"
      · rw [if_pos hc2] at h ⊢
        cases hb : UserPatchEngine.extractStringValue v "userName" with
        | error e => rw [hb] at h; exact Except.noConfusion h
        | ok str =>
          rw [hb] at h
          injection h with h
          rw [← h]
          exact ⟨_, rfl, strip_strip _, rfl, rfl, rfl, rfl⟩
      · rw [if_neg hc2] at h ⊢
        by_cases hc3 : lowerStr p = "displayname"
        · rw [if_pos hc3] at h ⊢
          cases hb : UserPatchEngine.extractNullableStringValue v "displayName" with
          | error e => rw [hb] at h; exact Except.noConfusion h
          | ok w =>
            rw [hb] at h
            injection h with h
            rw [← h]
            exact ⟨_, rfl, strip_jsSetG_idem s.rawPayload "displayName"
              (fun _ => UserPatchEngine.nullableVal w) rfl, rfl, rfl, rfl, rfl⟩
        · rw [if_neg hc3] at h ⊢
          by_cases hc4 : lowerStr p = "externalid"
          · rw [if_pos hc4] at h ⊢
            cases hb : UserPatchEngine.extractNullableStringValue v "externalId" with
            | error e => rw [hb] at h; exact Except.noConfusion h
            | ok w =>
              rw [hb] at h
              injection h with h
              rw [← h]
              exact ⟨_, rfl, strip_strip _, rfl, rfl, rfl, rfl⟩
          · rw [if_neg hc4] at h ⊢
            by_cases hext : p ≠ "" ∧ isExtensionPath p = true
            · rw [if_pos hext] at h ⊢
              cases hpe : parseExtensionPath p with
              | some pr =>
                obtain ⟨urn, sub⟩ := pr
                rw [hpe] at h
                injection h with h
                rw [← h]
                exact ⟨_, rfl, strip_extensionUpdate_idem s.rawPayload urn sub v,
                  rfl, rfl, rfl, rfl⟩
              | none =>
                rw [hpe] at h
                injection h with h
                rw [← h]
                exact ⟨_, rfl, strip_strip _, rfl, rfl, rfl, rfl⟩
            · rw [if_neg hext] at h ⊢
              by_cases hvp : p ≠ "" ∧ isValuePath p = true
              · rw [if_pos hvp] at h ⊢
                cases hpv : parseValuePath p with
                | some vp =>
                  rw [hpv] at h
                  injection h with h
                  rw [← h]
                  exact ⟨_, rfl, strip_valuePathUpdate_idem s.rawPayload vp v,
                    rfl, rfl, rfl, rfl⟩
                | none =>
                  rw [hpv] at h
                  injection h with h
                  rw [← h]
                  exact ⟨_, rfl, strip_strip _, rfl, rfl, rfl, rfl⟩
              · rw [if_neg hvp] at h ⊢
                by_cases hdot : config.verbosePatch = true ∧ p ≠ "" ∧ strHasChar p '.' = true
                · rw [if_pos hdot] at h ⊢
                  injection h with h
                  rw [← h]
                  exact ⟨_, rfl, strip_dotUpdate_idem s.rawPayload p v, rfl, rfl, rfl, rfl⟩
                · rw [if_neg hdot] at h ⊢
                  by_cases hp : p ≠ ""
                  · rw [if_pos hp] at h ⊢
                    injection h with h
                    rw [← h]
                    exact ⟨_, rfl, strip_jsSetG_idem s.rawPayload p (fun _ => v) rfl,
                      rfl, rfl, rfl, rfl⟩
                  · rw [if_neg hp] at h ⊢
                    by_cases hv : v.isObjectLike = true
                    · rw [if_pos hv] at h ⊢
                      exact applyNoPathMerge_idem v s final hnd h
                    · rw [if_neg hv] at h ⊢
                      injection h with h
                      rw [← h]
                      exact ⟨_, rfl, strip_strip _, rfl, rfl, rfl, rfl⟩
/-- C9: for every `replace` operation and every state with well-formed
(duplicate-free-key) raw payload on which `apply` succeeds, feeding the
returned state back into the same `apply` call returns the identical
result, for both the user and the group patch engines. -/
theorem c9_replace_idempotent :
    (∀ (r : PatchOperation) (s : UserPatchState) (config : PatchConfig)
      (res : UserPatchResult),
      lowerStr r.op = "replace" → NoDupKeys s.rawPayload →
      UserPatchEngine.apply [r] s config = .ok res →
      UserPatchEngine.apply [r] (userStateOfResult res) config = .ok res) ∧
    (∀ (r : PatchOperation) (st : GroupPatchState) (cfg : GroupMemberPatchConfig)
      (res : GroupPatchResult),
      lowerStr r.op = "replace" → NoDupKeys st.rawPayload →
      GroupPatchEngine.apply [r] st cfg = .ok res →
      GroupPatchEngine.apply [r] (groupStateOfResult res) cfg = .ok res) := by
  constructor
  · intro r s config res hop hnd happ
    unfold UserPatchEngine.apply at happ ⊢
    simp only [UserPatchEngine.applyOps, Bind.bind, Except.bind, pure, Except.pure, hop,
      eq_self_iff_true, or_true, true_or, not_true, if_true, if_false] at happ ⊢
    cases hstep : UserPatchEngine.applyAddOrReplace "replace" r.path r.value s config with
    | error e =>
      rw [hstep] at happ
      exact Except.noConfusion happ
    | ok fin =>
      rw [hstep] at happ
      injection happ with happ
      obtain ⟨f2, h2, hs2, hu2, hd2, he2, ha2⟩ :=
        applyAddOrReplace_replace_idem r.path r.value s fin config hnd hstep
      have h2' : UserPatchEngine.applyAddOrReplace "replace" r.path r.value
          (userStateOfResult
            { payload := UserPatchEngine.stripReservedAttributes fin.rawPayload,
              extractedFields :=
                { userName := fin.userName, displayName := fin.displayName,
                  externalId := fin.externalId, active := fin.active } }) config =
          .ok f2 := h2
      have hfinal : (Except.ok
          { payload := UserPatchEngine.stripReservedAttributes f2.rawPayload,
            extractedFields :=
              { userName := f2.userName, displayName := f2.displayName,
                externalId := f2.externalId, active := f2.active } } :
            Except PatchError UserPatchResult) =
          Except.ok
          { payload := UserPatchEngine.stripReservedAttributes fin.rawPayload,
            extractedFields :=
              { userName := fin.userName, displayName := fin.displayName,
                externalId := fin.externalId, active := fin.active } } := by
        rw [hs2, hu2, hd2, he2, ha2]
      rw [← happ, h2']
      exact hfinal
  · intro r st cfg res hop hnd happ
    unfold GroupPatchEngine.apply at happ ⊢
    simp only [GroupPatchEngine.applyOps, Bind.bind, Except.bind, pure, Except.pure, hop,
      eq_self_iff_true, or_true, true_or, not_true, if_true, if_false] at happ ⊢
    cases hstep : GroupPatchEngine.handleReplace r st.displayName st.externalId st.members
        st.rawPayload with
    | error e =>
      rw [hstep] at happ
      exact Except.noConfusion happ
    | ok st' =>
      rw [hstep] at happ
      injection happ with happ
      have hmain := handleReplace_idem r st.displayName st.externalId st.members st.rawPayload
        st' hnd hstep
      have hmain' : GroupPatchEngine.handleReplace r
          (groupStateOfResult
            { displayName := st'.displayName, externalId := st'.externalId,
              payload := st'.rawPayload, members := st'.members }).displayName
          (groupStateOfResult
            { displayName := st'.displayName, externalId := st'.externalId,
              payload := st'.rawPayload, members := st'.members }).externalId
          (groupStateOfResult
            { displayName := st'.displayName, externalId := st'.externalId,
              payload := st'.rawPayload, members := st'.members }).members
          (groupStateOfResult
            { displayName := st'.displayName, externalId := st'.externalId,
              payload := st'.rawPayload, members := st'.members }).rawPayload =
          .ok st' := hmain
      rw [← happ, hmain']
/-- Witness for C9: a concrete displayName replace (user engine) and a
concrete no-path string replace (group engine), each re-applied to its own
result, reproduce that result exactly. -/
theorem c9_replace_idempotent_witness :
    UserPatchEngine.apply [⟨"replace", some "displayName", JSVal.str "X"⟩]
      (userStateOfResult ⟨[("displayName", JSVal.str "X")], ⟨"u", some "X", none, false⟩⟩)
      ⟨true⟩ =
      .ok ⟨[("displayName", JSVal.str "X")], ⟨"u", some "X", none, false⟩⟩ ∧
    GroupPatchEngine.apply [⟨"replace", none, JSVal.str "G"⟩]
      (groupStateOfResult ⟨"G", none, [], []⟩) ⟨false, false, false⟩ =
      .ok ⟨"G", none, [], []⟩ :=
  ⟨c9_replace_idempotent.1 ⟨"replace", some "displayName", JSVal.str "X"⟩
      ⟨"u", none, none, false, []⟩ ⟨true⟩
      ⟨[("displayName", JSVal.str "X")], ⟨"u", some "X", none, false⟩⟩
      (by decide) (by simp [NoDupKeys, keysOf]) rfl,
   c9_replace_idempotent.2 ⟨"replace", none, JSVal.str "G"⟩ ⟨"D", none, [], []⟩
      ⟨false, false, false⟩ ⟨"G", none, [], []⟩
      (by decide) (by simp [NoDupKeys, keysOf]) rfl⟩
/-- C3: refuted.  A two-operation batch on a payload with a nested object
throws a typed failure on the second operation, yet the caller-visible
input is NOT as it was: `apply` copies the payload only one level deep
(line 100), so the verbose dot-notation add of the first operation wrote
`givenName` through the shared reference into the nested object of the
caller's `state.rawPayload` (lines 286-304) before the `active` replace
threw.  The second conjunct records that the nested object had no
`givenName` field before the call. -/
theorem c3_no_partial_application_cex :
    applyH
      [⟨"add", some "name.givenName", JSVal.str "X"⟩,
       ⟨"replace", some "active", JSVal.num 42⟩]
      [[("name", HVal.ref 1)], [("familyName", HVal.prim (JSVal.str "Doe"))]]
      ⟨"u", none, none, false, 0⟩ ⟨true⟩ =
      (.error (UserPatchEngine.boolValueError (JSVal.num 42)),
       [[("name", HVal.ref 1)],
        [("familyName", HVal.prim (JSVal.str "Doe")),
         ("givenName", HVal.prim (JSVal.str "X"))],
        [("name", HVal.ref 1)]]) ∧
    hGet (heapGet [[("name", HVal.ref 1)],
        [("familyName", HVal.prim (JSVal.str "Doe"))]] 1) "givenName" = none :=
  ⟨rfl, rfl⟩
